import Mathlib

/-!
Verification development for the group social-state simulation engine
(`emotion.py`, `character.py`, `group.py`, `chatbot.py`, `user_control.py`,
`event.py`).  The Python source is shallowly embedded: pure functions become
Lean functions, mutable objects become explicit state records threaded
through the operations, Python floats become rationals (all constants in the
source are exact decimal literals and every tension write is clamped), the
hidden `random.random()` draws become an explicit stream of rationals, and
the external AI adapter / interactive user input become oracle functions
stored in the delegate state.  The unbounded addressee-reply recursion of
`Group.apply_line` is bounded by an explicit fuel parameter (the spec itself
flags the missing bound); all theorems quantify over the fuel.
-/

/-- Emotions of `emotion.py` (`class Emotion(Enum)`), in declaration order. -/
inductive Emotion where
  | COMPASSIONATE | EXCITED | FLIRTY | HOPEFUL | HUMOROUS | PROUD
  | RESPECTFUL | SOLEMN
  | CALM | CONFUSED | CONTEMPLATIVE | CURIOUS | SURPRISED | RESIGNED
  | ANGRY | ANXIOUS | DOWN | EMBARRASSED | FEARFUL | IRRITATED
  | DEFENSIVE | DESPERATE | DISMISSIVE | JEALOUS | SARCASTIC | SKEPTICAL
  | FRIENDLY | NEUTRAL | HOSTILE | ADMIRATION | FEAR
  deriving DecidableEq, Repr, Fintype

namespace Emotion

/-- The `.name` attribute of a Python enum member: its declared identifier. -/
def pyName : Emotion → String
  | COMPASSIONATE => "COMPASSIONATE"
  | EXCITED => "EXCITED"
  | FLIRTY => "FLIRTY"
  | HOPEFUL => "HOPEFUL"
  | HUMOROUS => "HUMOROUS"
  | PROUD => "PROUD"
  | RESPECTFUL => "RESPECTFUL"
  | SOLEMN => "SOLEMN"
  | CALM => "CALM"
  | CONFUSED => "CONFUSED"
  | CONTEMPLATIVE => "CONTEMPLATIVE"
  | CURIOUS => "CURIOUS"
  | SURPRISED => "SURPRISED"
  | RESIGNED => "RESIGNED"
  | ANGRY => "ANGRY"
  | ANXIOUS => "ANXIOUS"
  | DOWN => "DOWN"
  | EMBARRASSED => "EMBARRASSED"
  | FEARFUL => "FEARFUL"
  | IRRITATED => "IRRITATED"
  | DEFENSIVE => "DEFENSIVE"
  | DESPERATE => "DESPERATE"
  | DISMISSIVE => "DISMISSIVE"
  | JEALOUS => "JEALOUS"
  | SARCASTIC => "SARCASTIC"
  | SKEPTICAL => "SKEPTICAL"
  | FRIENDLY => "FRIENDLY"
  | NEUTRAL => "NEUTRAL"
  | HOSTILE => "HOSTILE"
  | ADMIRATION => "ADMIRATION"
  | FEAR => "FEAR"

/-- Membership sets of `Emotion.get_category` in `emotion.py`. -/
def positiveSet : List Emotion :=
  [COMPASSIONATE, EXCITED, FLIRTY, HOPEFUL, HUMOROUS, PROUD,
   RESPECTFUL, SOLEMN, FRIENDLY, ADMIRATION]

def neutralSet : List Emotion :=
  [CALM, CONFUSED, CONTEMPLATIVE, CURIOUS, SURPRISED, RESIGNED, NEUTRAL]

def negativeSet : List Emotion :=
  [ANGRY, ANXIOUS, DOWN, EMBARRASSED, FEARFUL, IRRITATED, HOSTILE, FEAR]

def complexSet : List Emotion :=
  [DEFENSIVE, DESPERATE, DISMISSIVE, JEALOUS, SARCASTIC, SKEPTICAL]

/-- `Emotion.get_category` from `emotion.py`. -/
def get_category (e : Emotion) : String :=
  if e ∈ positiveSet then "positive"
  else if e ∈ neutralSet then "neutral"
  else if e ∈ negativeSet then "negative"
  else if e ∈ complexSet then "complex"
  else "unknown"

/-- `Emotion.get_tension_impact` from `emotion.py`; Python float literals
become the exact rationals they denote in the source text. -/
def get_tension_impact (e : Emotion) : ℚ :=
  let category := e.get_category
  if category = "positive" then -(3/100)
  else if category = "neutral" then 0
  else if category = "negative" then 2/100
  else if category = "complex" then 1/100
  else 0

/-- ASCII lowercasing of one character, the relevant fragment of Python
`str.lower` (every key of `emotion_map` is pure ASCII). -/
def lowerChar (c : Char) : Char :=
  if 'A' ≤ c ∧ c ≤ 'Z' then Char.ofNat (c.toNat + 32) else c

/-- `emotion_str.lower()` applied characterwise. -/
def lowerStr (s : String) : String := ⟨s.data.map lowerChar⟩

/-- The `emotion_map` dictionary of `Emotion.from_string`. -/
def emotionMap : List (String × Emotion) :=
  [("compassionate", COMPASSIONATE), ("excited", EXCITED), ("flirty", FLIRTY),
   ("hopeful", HOPEFUL), ("humorous", HUMOROUS), ("proud", PROUD),
   ("respectful", RESPECTFUL), ("solemn", SOLEMN),
   ("calm", CALM), ("confused", CONFUSED), ("contemplative", CONTEMPLATIVE),
   ("curious", CURIOUS), ("surprised", SURPRISED), ("resigned", RESIGNED),
   ("angry", ANGRY), ("anxious", ANXIOUS), ("down", DOWN),
   ("embarrassed", EMBARRASSED), ("fearful", FEARFUL), ("irritated", IRRITATED),
   ("defensive", DEFENSIVE), ("desperate", DESPERATE), ("dismissive", DISMISSIVE),
   ("jealous", JEALOUS), ("sarcastic", SARCASTIC), ("skeptical", SKEPTICAL),
   ("friendly", FRIENDLY), ("neutral", NEUTRAL), ("hostile", HOSTILE),
   ("admiration", ADMIRATION), ("fear", FEAR)]

end Emotion

/-- First-match association-list lookup: the semantics of Python
`dict.get` on a dictionary whose keys are unique. -/
def dictGet? {κ ν : Type} [DecidableEq κ] : List (κ × ν) → κ → Option ν
  | [], _ => none
  | (k, v) :: rest, key => if key = k then some v else dictGet? rest key

/-- `Emotion.from_string` from `emotion.py`:
`emotion_map.get(emotion_str.lower(), cls.NEUTRAL)`. -/
def Emotion.from_string (s : String) : Emotion :=
  (dictGet? Emotion.emotionMap (Emotion.lowerStr s)).getD Emotion.NEUTRAL

/-- Python dict assignment `d[key] = val`: replace the value in place when
the key is present, otherwise append a new binding. -/
def dictSet {κ ν : Type} [DecidableEq κ] : List (κ × ν) → κ → ν → List (κ × ν)
  | [], key, val => [(key, val)]
  | (k, v) :: rest, key, val =>
      if k = key then (key, val) :: rest else (k, v) :: dictSet rest key val

/-- Python `del d[key]` (guarded by `key in d` at every call site in the
source): remove the first binding of the key, identity when absent. -/
def dictErase {κ ν : Type} [DecidableEq κ] : List (κ × ν) → κ → List (κ × ν)
  | [], _ => []
  | (k, v) :: rest, key =>
      if k = key then rest else (k, v) :: dictErase rest key

/-- Update the value bound to a key in place, identity when the key is
absent.  Used for Python's `d[key].mutate()` patterns; at every call site
the key is present (guaranteed by the group invariant), so the
absent branch — a `KeyError` in Python — is unreachable. -/
def dictModify {κ ν : Type} [DecidableEq κ] :
    List (κ × ν) → κ → (ν → ν) → List (κ × ν)
  | [], _, _ => []
  | (k, v) :: rest, key, f =>
      if k = key then (k, f v) :: rest else (k, v) :: dictModify rest key f

/-- Python `min(a, b)` on numbers: `a` when `a <= b`, else `b`. -/
def pymin (a b : ℚ) : ℚ := if a ≤ b then a else b

/-- Python `max(a, b)` on numbers: `a` when `a >= b`, else `b`. -/
def pymax (a b : ℚ) : ℚ := if b ≤ a then a else b

/-- The data of a `Character` (`character.py`).  Identity, equality and
hashing are name-based (`__eq__`, `__hash__`), so friend/enemy lists and
every dictionary keyed by characters are represented by name.  The
`special_properties` field (arbitrary Python predicates) is omitted: it is
read only by `can_talk_to`, which none of the verified operations call. -/
structure CharData where
  name : String
  leadership : Int
  intelligence : Int
  resilience : Int
  friends : List String
  enemies : List String
  current_emotion : Emotion

/-- The heap of live `Character` objects, keyed by name: Python references
to a character all alias one mutable object, so mutations go through this
store. -/
def Store : Type := String → CharData

/-- Write back a mutated character object. -/
def setChar (σ : Store) (n : String) (c : CharData) : Store :=
  fun m => if m = n then c else σ m

namespace Character

/-- The argument of `Character.set_emotion`, `Union[str, Emotion]`. -/
inductive EmotionArg where
  | ofStr (s : String)
  | ofEmotion (e : Emotion)

/-- `Character.set_emotion` from `character.py`. -/
def set_emotion (self : CharData) (e : EmotionArg) : CharData :=
  match e with
  | .ofStr s => { self with current_emotion := Emotion.from_string s }
  | .ofEmotion e => { self with current_emotion := e }

/-- `Character.react_to_emotion` from `character.py`: positive displays
move the shower from enemies to friends, negative displays the reverse. -/
def react_to_emotion (self : CharData) (other : String) (emotion : Emotion) :
    CharData :=
  if emotion.get_category = "positive" ∧ other ∈ self.enemies then
    { self with
      enemies := self.enemies.erase other,
      friends :=
        if other ∈ self.friends then self.friends else self.friends ++ [other] }
  else if emotion.get_category = "negative" ∧ other ∈ self.friends then
    { self with
      friends := self.friends.erase other,
      enemies :=
        if other ∈ self.enemies then self.enemies else self.enemies ++ [other] }
  else self

/-- `Character.is_offended_by` from `character.py`.  The hidden
`random.random()` draw of the branch taken is passed in as `r`; each branch
compares it against the probability threshold of the source. -/
def is_offended_by (self other : CharData) (emotion : Emotion) (r : ℚ) : Bool :=
  if 70 < self.resilience then false
  else if other.name ∈ self.enemies ∧
      (emotion.get_category = "negative" ∨ emotion.get_category = "complex") then
    decide (r < 7/10)
  else if other.name ∈ self.friends ∧ emotion = Emotion.ANGRY then
    decide (r < 3/10)
  else if emotion.get_category = "negative" then
    decide (r < 1/2)
  else false

end Character

/-- One record of a conversation history: the dictionaries appended by
`Group.apply_line` (all six keys) and the `System` notices appended in
`Event.apply` (which carry only `type`, `speaker` and `text`; their missing
keys are `none` here).  `emotion` stores the Python `.name` string of the
emotion, `timestamp` an abstract clock tick standing for
`datetime.now().isoformat()`. -/
structure Entry where
  type : String
  speaker : String
  text : String
  emotion : Option String
  addressed_to : Option String
  timestamp : Option Nat
  deriving DecidableEq, Repr

/-- The opaque generation backend (`AIAdapter.generate_response`): a pure
oracle from the character profile, the conversation context and the
optional prompt to the produced text. -/
def AdapterFn : Type := CharData → List Entry → Option String → String

/-- State of a `Chatbot` (`chatbot.py`). -/
structure ChatbotState where
  characterName : String
  adapter : AdapterFn
  conversation_history : List Entry
  is_active : Bool

/-- The bounded-history append shared verbatim by `Chatbot.add_to_history`
and `UserControl.add_to_history`: append, then keep the trailing 20
entries when the length exceeds 20. -/
def histAppend (h : List Entry) (e : Entry) : List Entry :=
  let h' := h ++ [e]
  if h'.length > 20 then h'.drop (h'.length - 20) else h'

namespace ChatbotState

/-- `Chatbot.add_to_history` from `chatbot.py`. -/
def add_to_history (cb : ChatbotState) (e : Entry) : ChatbotState :=
  { cb with conversation_history := histAppend cb.conversation_history e }

/-- `Chatbot.generate_response` from `chatbot.py`: empty when inactive,
otherwise delegate to the adapter with the character and history. -/
def generate_response (σ : Store) (cb : ChatbotState) (prompt : Option String) :
    String :=
  if cb.is_active then cb.adapter (σ cb.characterName) cb.conversation_history prompt
  else ""

end ChatbotState

/-- State of a `UserControl` (`user_control.py`).  The chain
`generate_response_options` / `present_options` blocks on interactive
input; its eventual result (a chosen option, free text, or the empty string
for skip) is modelled by the `respond` oracle over the character profile
and the bounded history. -/
structure UserControlState where
  characterName : String
  respond : CharData → List Entry → String
  conversation_history : List Entry
  is_active : Bool

namespace UserControlState

/-- `UserControl.add_to_history` from `user_control.py` (textually the same
bounded append as the chatbot's). -/
def add_to_history (uc : UserControlState) (e : Entry) : UserControlState :=
  { uc with conversation_history := histAppend uc.conversation_history e }

/-- `UserControl.handle_addressed` from `user_control.py`: empty when
inactive, otherwise the user's eventual choice. -/
def handle_addressed (σ : Store) (uc : UserControlState) : String :=
  if uc.is_active then uc.respond (σ uc.characterName) uc.conversation_history
  else ""

end UserControlState

/-- The mutable state of a `Group` (`group.py`), with every dictionary an
insert-ordered association list keyed by character name or day id. -/
structure GroupState where
  members : List String
  general_mood : List (Emotion × ℚ)
  emotions : List (String × List (String × Emotion))
  tension : ℚ
  chatbots : List (String × ChatbotState)
  user_controls : List (String × UserControlState)
  conversation_history : List (String × List Entry)
  current_day : String

/-- `Group()` — the constructor with its default empty member list. -/
def GroupState.init : GroupState :=
  { members := [], general_mood := [], emotions := [], tension := 0,
    chatbots := [], user_controls := [], conversation_history := [],
    current_day := "day-01" }

/-- The whole mutable world an operation can touch: the character heap, the
group, the pending `random.random()` draws, and a clock standing in for
`datetime.now()`. -/
structure World where
  chars : Store
  group : GroupState
  draws : List ℚ
  clock : Nat

namespace Group

/-- The friend/enemy seeding rule shared by `Group.__init__` and
`Group.add`: the attitude of `a` toward `b`. -/
def seedAttitude (σ : Store) (a b : String) : Emotion :=
  if b ∈ (σ a).friends then Emotion.FRIENDLY
  else if b ∈ (σ a).enemies then Emotion.HOSTILE
  else Emotion.NEUTRAL

/-- One iteration of the seeding loop in `Group.add` (`for c in
self.members: if c != char: ...`): set both directed attitudes between the
new member `ch` and the existing member `c`. -/
def addSeedStep (σ : Store) (ch : String)
    (em : List (String × List (String × Emotion))) (c : String) :
    List (String × List (String × Emotion)) :=
  if c = ch then em
  else
    let em := dictModify em ch (fun inner => dictSet inner c (seedAttitude σ ch c))
    dictModify em c (fun inner => dictSet inner ch (seedAttitude σ c ch))

/-- `Group.add` from `group.py`. -/
def add (σ : Store) (g : GroupState) (ch : String) : GroupState :=
  if ch ∈ g.members then g
  else
    let ms := g.members ++ [ch]
    let em := dictSet g.emotions ch []
    { g with members := ms, emotions := ms.foldl (addSeedStep σ ch) em }

/-- `Group.remove` from `group.py`. -/
def remove (g : GroupState) (ch : String) : GroupState :=
  if ch ∈ g.members then
    let ms := g.members.erase ch
    let em := dictErase g.emotions ch
    let em := ms.foldl (fun em c => dictModify em c (fun inner => dictErase inner ch)) em
    { g with members := ms, emotions := em }
  else g

/-- One increment of the mood tally (`tally[emo] = tally.get(emo, 0) + 1`). -/
def tallyAdd (t : List (Emotion × Nat)) (e : Emotion) : List (Emotion × Nat) :=
  dictSet t e ((dictGet? t e).getD 0 + 1)

/-- `Group.update_mood` from `group.py`: tally every pairwise attitude and
every member's current emotion, then normalize. -/
def update_mood (σ : Store) (g : GroupState) : GroupState :=
  let tally := g.emotions.foldl (fun t p => p.2.foldl (fun t q => tallyAdd t q.2) t) []
  let tally := g.members.foldl (fun t c => tallyAdd t (σ c).current_emotion) tally
  let total : Nat := tally.foldl (fun s p => s + p.2) 0
  let total := if 0 < total then total else 1
  { g with general_mood := tally.map (fun p => (p.1, (p.2 : ℚ) / (total : ℚ))) }

/-- Step 2 of `apply_line`: `if emotion: speaker.set_emotion(emotion)`. -/
def setSpeakerEmotion (w : World) (speaker : String) (emotion : Option Emotion) :
    World :=
  match emotion with
  | some e =>
      let c := Character.set_emotion (w.chars speaker) (.ofEmotion e)
      { w with chars := setChar w.chars speaker c }
  | none => w

/-- Step 3 of `apply_line`: add the emotion's tension impact, then
`self.tension = max(0.0, min(1.0, self.tension))`. -/
def bumpTension (w : World) (speaker : String) : World :=
  let t := w.group.tension + (w.chars speaker).current_emotion.get_tension_impact
  let t := pymax 0 (pymin 1 t)
  { w with group := { w.group with tension := t } }

/-- The `dialogue_entry` dictionary built in `apply_line`. -/
def dialogueRecord (w : World) (speaker line : String)
    (addressed_to : Option String) : Entry :=
  { type := "dialogue", speaker := speaker, text := line,
    emotion := some (w.chars speaker).current_emotion.pyName,
    addressed_to := addressed_to, timestamp := some w.clock }

/-- Append the record to `conversation_history[current_day]` (creating the
day's list when absent) and advance the clock. -/
def logEntry (w : World) (e : Entry) : World :=
  let day := w.group.current_day
  let log := (dictGet? w.group.conversation_history day).getD [] ++ [e]
  let ch := dictSet w.group.conversation_history day log
  { w with clock := w.clock + 1, group := { w.group with conversation_history := ch } }

/-- Append the record to the bounded history of every active chatbot
(`for char, chatbot in self.chatbots.items(): if chatbot.is_active: ...`). -/
def broadcastEntry (w : World) (e : Entry) : World :=
  let cbs := w.group.chatbots.map (fun p =>
    (p.1, if p.2.is_active then p.2.add_to_history e else p.2))
  { w with group := { w.group with chatbots := cbs } }

/-- Step 5a of `apply_line`: the addressee's attitude toward the speaker
flips to FRIENDLY on a positive display and HOSTILE on a negative one. -/
def attitudeUpdate (w : World) (speaker addressed : String) : World :=
  let cat := (w.chars speaker).current_emotion.get_category
  if cat = "positive" then
    let em := dictModify w.group.emotions addressed
      (fun inner => dictSet inner speaker Emotion.FRIENDLY)
    { w with group := { w.group with emotions := em } }
  else if cat = "negative" then
    let em := dictModify w.group.emotions addressed
      (fun inner => dictSet inner speaker Emotion.HOSTILE)
    { w with group := { w.group with emotions := em } }
  else w

/-- Step 5b of `apply_line`: consume one random draw; when the addressee is
offended add 0.015 to the tension and clamp above by 1. -/
def offenseCheck (w : World) (speaker addressed : String) : World :=
  let r := w.draws.headD 0
  let w := { w with draws := w.draws.tail }
  if Character.is_offended_by (w.chars addressed) (w.chars speaker)
      (w.chars speaker).current_emotion r then
    { w with group := { w.group with tension := pymin 1 (w.group.tension + 15/1000) } }
  else w

/-- Step 6 of `apply_line`: every member other than the speaker reacts to
the speaker's displayed emotion. -/
def reactAll (w : World) (speaker : String) : World :=
  let emo := (w.chars speaker).current_emotion
  { w with chars := w.group.members.foldl (fun σ m =>
      if m ≠ speaker then setChar σ m (Character.react_to_emotion (σ m) speaker emo)
      else σ) w.chars }

/-- Whether the addressee has an active chatbot (`addressed_to in
self.chatbots and self.chatbots[addressed_to].is_active`). -/
def chatbotActive (g : GroupState) (n : String) : Bool :=
  match dictGet? g.chatbots n with
  | some cb => cb.is_active
  | none => false

/-- Whether the addressee has an active user control. -/
def userControlActive (g : GroupState) (n : String) : Bool :=
  match dictGet? g.user_controls n with
  | some uc => uc.is_active
  | none => false

/-- The body of `Group.apply_line` from `group.py`, with the recursive
addressee-reply call abstracted as `reply` (applied exactly where the
source calls `self.apply_line(addressed_to, response, speaker,
addressed_to.current_emotion)`). -/
def applyLineCore
    (reply : World → String → String → Option String → Option Emotion → World)
    (w : World) (speaker line : String) (addressed_to : Option String)
    (emotion : Option Emotion) : World :=
  if speaker ∈ w.group.members then
    let w := setSpeakerEmotion w speaker emotion
    let w := bumpTension w speaker
    let entry := dialogueRecord w speaker line addressed_to
    let w := broadcastEntry (logEntry w entry) entry
    let w :=
      match addressed_to with
      | some addr =>
        if addr ∈ w.group.members then
          let w := attitudeUpdate w speaker addr
          let w := offenseCheck w speaker addr
          if chatbotActive w.group addr then
            let response :=
              match dictGet? w.group.chatbots addr with
              | some cb => ChatbotState.generate_response w.chars cb none
              | none => ""
            if response ≠ "" then
              reply w addr response (some speaker) (some ((w.chars addr).current_emotion))
            else w
          else if userControlActive w.group addr then
            let response :=
              match dictGet? w.group.user_controls addr with
              | some uc => UserControlState.handle_addressed w.chars uc
              | none => ""
            if response ≠ "" then
              reply w addr response (some speaker) (some ((w.chars addr).current_emotion))
            else w
          else w
        else w
      | none => w
    let w := reactAll w speaker
    { w with group := update_mood w.chars w.group }
  else w

/-- `Group.apply_line`, with an explicit fuel bound on the addressee-reply
recursion (the source recurses unboundedly; the spec flags the missing
bound, and every theorem below quantifies over the fuel).  When the fuel is
exhausted the reply is skipped and the rest of the call proceeds. -/
def apply_line : Nat → World → String → String → Option String → Option Emotion → World
  | 0 => applyLineCore (fun w _ _ _ _ => w)
  | fuel + 1 => applyLineCore (apply_line fuel)

end Group

namespace Event

/-- The `target` of a dialogue `Event`: a single character, a list of
characters, or absent (`None`). -/
inductive DialogueTarget where
  | noTarget
  | single (n : String)
  | many (ns : List String)

/-- The `emotion` field of a dialogue payload: a string, an `Emotion`
value, or absent. -/
inductive EmotionPayload where
  | ofStr (s : String)
  | ofEmotion (e : Emotion)

/-- `Emotion.from_string(emotion) if isinstance(emotion, str) else emotion`,
the conversion applied at each `apply_line` call site in `Event.apply`. -/
def resolveEmotion : Option EmotionPayload → Option Emotion
  | some (.ofStr s) => some (Emotion.from_string s)
  | some (.ofEmotion e) => some e
  | none => none

/-- Python truthiness of `addressed_to`: `None` and the empty list are
falsy. -/
def targetTruthy : DialogueTarget → Bool
  | .noTarget => false
  | .single _ => true
  | .many ns => !ns.isEmpty

/-- The display form of the target used in the `System` notice
(`addressed_to.name` or `', '.join(...)`). -/
def targetNames : DialogueTarget → String
  | .noTarget => ""
  | .single n => n
  | .many ns => String.intercalate ", " ns

/-- The context notice `Event.apply` pushes into the speaker's chatbot
history before generating, carrying only `type`, `speaker` and `text`. -/
def systemNotice (target : DialogueTarget) : Entry :=
  { type := "dialogue", speaker := "System",
    text := "You are being addressed by " ++ targetNames target,
    emotion := none, addressed_to := none, timestamp := none }

/-- The pre-generation step of the AI-control branch: when the target is
truthy, append the `System` notice to the speaker's chatbot history. -/
def aiPre (w : World) (actor : String) (target : DialogueTarget) : World :=
  if targetTruthy target then
    let cbs := dictModify w.group.chatbots actor
      (fun cb => cb.add_to_history (systemNotice target))
    { w with group := { w.group with chatbots := cbs } }
  else w

/-- `ai_response = chatbot.generate_response()` for the speaker. -/
def aiResponse (w : World) (actor : String) : String :=
  match dictGet? w.group.chatbots actor with
  | some cb => ChatbotState.generate_response w.chars cb none
  | none => ""

/-- The `DIALOGUE` branch of `Event.apply` (`event.py`): resolve speaker
control, then dispatch `group.apply_line`.  Under active AI control the
scripted text is replaced by a freshly generated response; under active
user control the scripted line is used (the source's stub); in all three
branches a list target loops one call per element and a single target makes
one call, but only the uncontrolled branch makes a call when the target is
absent. -/
def apply_dialogue (fuel : Nat) (w : World) (actor : String)
    (target : DialogueTarget) (text : String) (emo : Option EmotionPayload) :
    World :=
  let e := resolveEmotion emo
  if Group.chatbotActive w.group actor then
    let w := aiPre w actor target
    let resp := aiResponse w actor
    match target with
    | .many ns => ns.foldl (fun w t => Group.apply_line fuel w actor resp (some t) e) w
    | .single t => Group.apply_line fuel w actor resp (some t) e
    | .noTarget => w
  else if Group.userControlActive w.group actor then
    match target with
    | .many ns => ns.foldl (fun w t => Group.apply_line fuel w actor text (some t) e) w
    | .single t => Group.apply_line fuel w actor text (some t) e
    | .noTarget => w
  else
    match target with
    | .many ns => ns.foldl (fun w t => Group.apply_line fuel w actor text (some t) e) w
    | .single t => Group.apply_line fuel w actor text (some t) e
    | .noTarget => Group.apply_line fuel w actor text none e

/-- The list of `addressed_to` arguments that the `DIALOGUE` branch passes
to `group.apply_line`, in call order — the branch's call trace. -/
def dialogueCallArgs (g : GroupState) (actor : String) (target : DialogueTarget) :
    List (Option String) :=
  if Group.chatbotActive g actor || Group.userControlActive g actor then
    match target with
    | .many ns => ns.map some
    | .single t => [some t]
    | .noTarget => []
  else
    match target with
    | .many ns => ns.map some
    | .single t => [some t]
    | .noTarget => [Option.none]

/-- The world state in which the `apply_line` calls of the `DIALOGUE`
branch start (the AI branch first pushes the `System` notice). -/
def dialoguePre (w : World) (actor : String) (target : DialogueTarget) : World :=
  if Group.chatbotActive w.group actor then aiPre w actor target else w

/-- The text every `apply_line` call of the `DIALOGUE` branch carries: the
generated response under active AI control, the scripted text otherwise. -/
def effectiveText (w : World) (actor : String) (target : DialogueTarget)
    (text : String) : String :=
  if Group.chatbotActive w.group actor then aiResponse (aiPre w actor target) actor
  else text

end Event

/-- One group operation of the kind quantified over by the attitude
completeness property: a `Group.add`, a `Group.remove`, or a
`Group.apply_line` call with arbitrary arguments. -/
inductive GOp where
  | addMember (n : String)
  | removeMember (n : String)
  | line (fuel : Nat) (speaker text : String) (addressed_to : Option String)
      (emotion : Option Emotion)

/-- Apply one group operation to the world. -/
def stepOp (w : World) : GOp → World
  | .addMember n => { w with group := Group.add w.chars w.group n }
  | .removeMember n => { w with group := Group.remove w.group n }
  | .line fuel sp tx addr emo => Group.apply_line fuel w sp tx addr emo

/-- Run a sequence of group operations. -/
def runOps (w : World) (ops : List GOp) : World := ops.foldl stepOp w

/-- A character with the constructor's default attributes. -/
def mkChar (n : String) : CharData :=
  { name := n, leadership := 50, intelligence := 50, resilience := 50,
    friends := [], enemies := [], current_emotion := Emotion.NEUTRAL }

/-- A heap in which every name resolves to a default character. -/
def baseStore : Store := fun n => mkChar n

/-- A world holding a freshly constructed empty group. -/
def world0 : World :=
  { chars := baseStore, group := GroupState.init, draws := [], clock := 0 }

/-- An activated user-control delegate for character `a` whose user always
skips. -/
def exampleUserControl : UserControlState :=
  { characterName := "a", respond := fun _ _ => "", conversation_history := [],
    is_active := true }

/-- A one-member group in which `a` is under active user control. -/
def ucWorld : World :=
  let g := { GroupState.init with members := ["a"] }
  let g := { g with user_controls := [("a", exampleUserControl)] }
  { chars := baseStore, group := g, draws := [], clock := 0 }

/-- An activated chatbot for character `a` with a constant adapter. -/
def exampleChatbot : ChatbotState :=
  { characterName := "a", adapter := fun _ _ _ => "yo",
    conversation_history := [], is_active := true }

/-- A deactivated chatbot. -/
def inactiveChatbot : ChatbotState :=
  { characterName := "a", adapter := fun _ _ _ => "yo",
    conversation_history := [], is_active := false }

/-- A one-member group in which `a` is under active AI control. -/
def cbWorld : World :=
  let g := { GroupState.init with members := ["a"] }
  let g := { g with chatbots := [("a", exampleChatbot)] }
  { chars := baseStore, group := g, draws := [], clock := 0 }

/-- A one-member group with the member's (empty) attitude row, as built by
`Group.add` on an empty group. -/
def pairGroup : GroupState :=
  { GroupState.init with members := ["a"], emotions := [("a", [])] }

/-- Modelled from the spec: the fixed category-to-delta table of the data
model section, including the zero delta for the unknown category. -/
def specCategoryDelta (c : String) : ℚ :=
  if c = "positive" then -(3/100)
  else if c = "neutral" then 0
  else if c = "negative" then 2/100
  else if c = "complex" then 1/100
  else 0

/-- A directed attitude entry exists: the attitude dictionary has an outer
binding for `a` whose inner dictionary binds `b`. -/
def entryPresent (em : List (String × List (String × Emotion)))
    (a b : String) : Prop :=
  ∃ inner, dictGet? em a = some inner ∧ (dictGet? inner b).isSome

/-- The structural invariant of the attitude matrix maintained by `add`,
`remove` and `apply_line`: the member list and all dictionary key lists are
duplicate-free, every attitude key (outer and inner) is a current member,
every member owns an attitude row, and every ordered pair of distinct
members has an entry. -/
def GInv (g : GroupState) : Prop :=
  g.members.Nodup ∧
  (g.emotions.map Prod.fst).Nodup ∧
  (∀ p ∈ g.emotions, (p.2.map Prod.fst).Nodup) ∧
  (∀ p ∈ g.emotions, p.1 ∈ g.members) ∧
  (∀ p ∈ g.emotions, ∀ q ∈ p.2, q.1 ∈ g.members) ∧
  (∀ a ∈ g.members, (dictGet? g.emotions a).isSome) ∧
  (∀ a ∈ g.members, ∀ b ∈ g.members, a ≠ b → entryPresent g.emotions a b)

/-- The argument tuple of one `Group.apply_line` call. -/
structure LineCall where
  fuel : Nat
  speaker : String
  text : String
  addressed_to : Option String
  emotion : Option Emotion

/-- Run a sequence of `apply_line` calls. -/
def runLines (w : World) (calls : List LineCall) : World :=
  calls.foldl
    (fun w c => Group.apply_line c.fuel w c.speaker c.text c.addressed_to c.emotion) w

section StageLemmas

variable (w : World) (sp a ch : String) (e : Option Emotion) (en : Entry)

theorem setSpeakerEmotion_group : (Group.setSpeakerEmotion w sp e).group = w.group := by
  cases e <;> rfl

theorem setSpeakerEmotion_clock : (Group.setSpeakerEmotion w sp e).clock = w.clock := by
  cases e <;> rfl

theorem setSpeakerEmotion_draws : (Group.setSpeakerEmotion w sp e).draws = w.draws := by
  cases e <;> rfl

theorem bumpTension_members : (Group.bumpTension w sp).group.members = w.group.members := rfl

theorem bumpTension_emotions : (Group.bumpTension w sp).group.emotions = w.group.emotions := rfl

theorem bumpTension_chatbots : (Group.bumpTension w sp).group.chatbots = w.group.chatbots := rfl

theorem bumpTension_ucs :
    (Group.bumpTension w sp).group.user_controls = w.group.user_controls := rfl

theorem bumpTension_chars : (Group.bumpTension w sp).chars = w.chars := rfl

theorem bumpTension_clock : (Group.bumpTension w sp).clock = w.clock := rfl

theorem bumpTension_draws : (Group.bumpTension w sp).draws = w.draws := rfl

theorem logEntry_members : (Group.logEntry w en).group.members = w.group.members := rfl

theorem logEntry_emotions : (Group.logEntry w en).group.emotions = w.group.emotions := rfl

theorem logEntry_chatbots : (Group.logEntry w en).group.chatbots = w.group.chatbots := rfl

theorem logEntry_ucs :
    (Group.logEntry w en).group.user_controls = w.group.user_controls := rfl

theorem logEntry_tension : (Group.logEntry w en).group.tension = w.group.tension := rfl

theorem logEntry_chars : (Group.logEntry w en).chars = w.chars := rfl

theorem logEntry_draws : (Group.logEntry w en).draws = w.draws := rfl

theorem broadcastEntry_members :
    (Group.broadcastEntry w en).group.members = w.group.members := rfl

theorem broadcastEntry_emotions :
    (Group.broadcastEntry w en).group.emotions = w.group.emotions := rfl

theorem broadcastEntry_ucs :
    (Group.broadcastEntry w en).group.user_controls = w.group.user_controls := rfl

theorem broadcastEntry_tension :
    (Group.broadcastEntry w en).group.tension = w.group.tension := rfl

theorem broadcastEntry_chars : (Group.broadcastEntry w en).chars = w.chars := rfl

theorem broadcastEntry_draws : (Group.broadcastEntry w en).draws = w.draws := rfl

theorem attitudeUpdate_members :
    (Group.attitudeUpdate w sp a).group.members = w.group.members := by
  unfold Group.attitudeUpdate; dsimp only; split_ifs <;> rfl

theorem attitudeUpdate_chatbots :
    (Group.attitudeUpdate w sp a).group.chatbots = w.group.chatbots := by
  unfold Group.attitudeUpdate; dsimp only; split_ifs <;> rfl

theorem attitudeUpdate_ucs :
    (Group.attitudeUpdate w sp a).group.user_controls = w.group.user_controls := by
  unfold Group.attitudeUpdate; dsimp only; split_ifs <;> rfl

theorem attitudeUpdate_tension :
    (Group.attitudeUpdate w sp a).group.tension = w.group.tension := by
  unfold Group.attitudeUpdate; dsimp only; split_ifs <;> rfl

theorem attitudeUpdate_chars : (Group.attitudeUpdate w sp a).chars = w.chars := by
  unfold Group.attitudeUpdate; dsimp only; split_ifs <;> rfl

theorem attitudeUpdate_draws : (Group.attitudeUpdate w sp a).draws = w.draws := by
  unfold Group.attitudeUpdate; dsimp only; split_ifs <;> rfl

theorem offenseCheck_members :
    (Group.offenseCheck w sp a).group.members = w.group.members := by
  unfold Group.offenseCheck; dsimp only; split_ifs <;> rfl

theorem offenseCheck_emotions :
    (Group.offenseCheck w sp a).group.emotions = w.group.emotions := by
  unfold Group.offenseCheck; dsimp only; split_ifs <;> rfl

theorem offenseCheck_chatbots :
    (Group.offenseCheck w sp a).group.chatbots = w.group.chatbots := by
  unfold Group.offenseCheck; dsimp only; split_ifs <;> rfl

theorem offenseCheck_ucs :
    (Group.offenseCheck w sp a).group.user_controls = w.group.user_controls := by
  unfold Group.offenseCheck; dsimp only; split_ifs <;> rfl

theorem offenseCheck_chars : (Group.offenseCheck w sp a).chars = w.chars := by
  unfold Group.offenseCheck; dsimp only; split_ifs <;> rfl

theorem reactAll_group : (Group.reactAll w sp).group = w.group := rfl

theorem reactAll_clock : (Group.reactAll w sp).clock = w.clock := rfl

theorem update_mood_members (σ : Store) (g : GroupState) :
    (Group.update_mood σ g).members = g.members := rfl

theorem update_mood_emotions (σ : Store) (g : GroupState) :
    (Group.update_mood σ g).emotions = g.emotions := rfl

theorem update_mood_chatbots (σ : Store) (g : GroupState) :
    (Group.update_mood σ g).chatbots = g.chatbots := rfl

theorem update_mood_ucs (σ : Store) (g : GroupState) :
    (Group.update_mood σ g).user_controls = g.user_controls := rfl

theorem update_mood_tension (σ : Store) (g : GroupState) :
    (Group.update_mood σ g).tension = g.tension := rfl

theorem bumpTension_clamped :
    0 ≤ (Group.bumpTension w sp).group.tension ∧
    (Group.bumpTension w sp).group.tension ≤ 1 := by
  unfold Group.bumpTension pymax pymin
  dsimp only
  split_ifs <;> refine ⟨?_, ?_⟩ <;> dsimp only <;> linarith

theorem offenseCheck_tension_mem (h0 : 0 ≤ w.group.tension)
    (h1 : w.group.tension ≤ 1) :
    0 ≤ (Group.offenseCheck w sp a).group.tension ∧
    (Group.offenseCheck w sp a).group.tension ≤ 1 := by
  unfold Group.offenseCheck pymin
  dsimp only
  split_ifs <;> refine ⟨?_, ?_⟩ <;> dsimp only <;> linarith

end StageLemmas

/-- An actor with resilience strictly above 70 is never offended: the first
branch of `Character.is_offended_by` short-circuits to `False` before any
relationship test or random draw is consulted. -/
theorem offense_cutoff_resilience (self other : CharData) (emotion : Emotion)
    (r : ℚ) (h : 70 < self.resilience) :
    Character.is_offended_by self other emotion r = false := by
  unfold Character.is_offended_by
  simp [h]

/-- Witness for the offense cutoff at a concrete character of resilience
80, with an enemy relationship, the ANGRY emotion and a tiny draw. -/
theorem offense_cutoff_resilience_witness :
    (70 : Int) < ({ mkChar "t" with resilience := 80 } : CharData).resilience ∧
    Character.is_offended_by { mkChar "t" with resilience := 80 } (mkChar "o")
      Emotion.ANGRY (1/100) = false :=
  ⟨by decide, offense_cutoff_resilience _ _ _ _ (by decide)⟩

/-- Re-adding a present member is a no-op: `Group.add` returns before
touching the member list or any attitude entry. -/
theorem add_idempotent (σ : Store) (g : GroupState) (ch : String)
    (h : ch ∈ g.members) : Group.add σ g ch = g := by
  unfold Group.add
  simp [h]

/-- Witness for idempotent re-add on a concrete one-member group. -/
theorem add_idempotent_witness :
    "a" ∈ pairGroup.members ∧ Group.add baseStore pairGroup "a" = pairGroup :=
  ⟨by decide, add_idempotent _ _ _ (by decide)⟩

/-- An inactive chatbot returns the empty string and the result does not
depend on the adapter, so the backend is never consulted. -/
theorem inactive_chatbot_silent (σ : Store) (cb : ChatbotState)
    (prompt : Option String) (h : cb.is_active = false) :
    ChatbotState.generate_response σ cb prompt = "" ∧
    ∀ a : AdapterFn, ChatbotState.generate_response σ { cb with adapter := a } prompt = "" := by
  constructor
  · unfold ChatbotState.generate_response
    simp [h]
  · intro a
    unfold ChatbotState.generate_response
    simp [h]

/-- Witness: the concrete deactivated chatbot stays silent. -/
theorem inactive_chatbot_silent_witness :
    ChatbotState.generate_response baseStore inactiveChatbot (some "p") = "" ∧
    ∀ a : AdapterFn,
      ChatbotState.generate_response baseStore { inactiveChatbot with adapter := a } (some "p") = "" :=
  inactive_chatbot_silent baseStore inactiveChatbot (some "p") rfl

/-- The tension impact of every emotion follows the fixed category table
(positive -0.03, neutral 0, negative +0.02, complex +0.01, unknown 0) of
`specCategoryDelta`, and — witnessed on the positive FLIRTY and the
negative ANGRY — the positive delta has strictly larger magnitude than the
negative one. -/
theorem tension_delta_table :
    (∀ e : Emotion, e.get_tension_impact = specCategoryDelta e.get_category) ∧
    Emotion.FLIRTY.get_category = "positive" ∧
    Emotion.ANGRY.get_category = "negative" ∧
    |Emotion.FLIRTY.get_tension_impact| > |Emotion.ANGRY.get_tension_impact| := by
  refine ⟨fun e => ?_, rfl, rfl, ?_⟩
  · cases e <;> rfl
  · have h1 : Emotion.FLIRTY.get_tension_impact = -(3/100) := rfl
    have h2 : Emotion.ANGRY.get_tension_impact = 2/100 := rfl
    rw [h1, h2, abs_of_nonpos (by norm_num), abs_of_nonneg (by norm_num)]
    norm_num

/-- String-to-emotion resolution is total by construction, depends only on
the lowercased input (so any capitalization of a known name resolves to
that emotion — instantiated for FLIRTY), and defaults to NEUTRAL whenever
the lowercased string is not a key of the emotion map. -/
theorem from_string_resolution (s t : String) :
    (Emotion.lowerStr s = Emotion.lowerStr t →
      Emotion.from_string s = Emotion.from_string t) ∧
    (dictGet? Emotion.emotionMap (Emotion.lowerStr s) = none →
      Emotion.from_string s = Emotion.NEUTRAL) ∧
    (Emotion.lowerStr s = "flirty" → Emotion.from_string s = Emotion.FLIRTY) := by
  refine ⟨fun h => ?_, fun h => ?_, fun h => ?_⟩
  · unfold Emotion.from_string
    rw [h]
  · unfold Emotion.from_string
    rw [h]
    rfl
  · unfold Emotion.from_string
    rw [h]
    rfl

/-- Witness for resolution: mixed-case and uppercase FLIRTY resolve to
FLIRTY, and an unknown string falls back to NEUTRAL. -/
theorem from_string_resolution_witness :
    Emotion.from_string "FLIRTY" = Emotion.from_string "fLiRtY" ∧
    Emotion.from_string "FLIRTY" = Emotion.FLIRTY ∧
    Emotion.from_string "minotaur" = Emotion.NEUTRAL :=
  ⟨(from_string_resolution "FLIRTY" "fLiRtY").1 (by decide),
   (from_string_resolution "FLIRTY" "fLiRtY").2.2 (by decide),
   (from_string_resolution "minotaur" "minotaur").2.1 (by decide)⟩

theorem histAppend_eq_lastN (h : List Entry) (e : Entry) :
    histAppend h e = (h ++ [e]).drop ((h ++ [e]).length - 20) := by
  unfold histAppend
  dsimp only
  split_ifs with hl
  · rfl
  · have h0 : (h ++ [e]).length - 20 = 0 := by omega
    rw [h0, List.drop_zero]

theorem histAppend_length_le (h : List Entry) (e : Entry) (hh : h.length ≤ 20) :
    (histAppend h e).length ≤ 20 := by
  unfold histAppend
  dsimp only
  split_ifs with hl
  · rw [List.length_drop]
    omega
  · simp only [List.length_append, List.length_singleton] at hl ⊢
    omega

theorem drop_sub_twenty_append (l t : List Entry) :
    (l.drop (l.length - 20) ++ t).drop ((l.drop (l.length - 20) ++ t).length - 20)
      = (l ++ t).drop ((l ++ t).length - 20) := by
  rcases Nat.le_total l.length 20 with hl | hl
  · have h0 : l.length - 20 = 0 := by omega
    rw [h0, List.drop_zero]
  · have hk : l.length - 20 ≤ l.length := by omega
    rw [← List.drop_append_of_le_length hk, List.drop_drop]
    congr 1
    simp only [List.length_drop, List.length_append]
    omega

theorem foldl_histAppend_eq (es : List Entry) :
    ∀ h : List Entry, h.length ≤ 20 →
      List.foldl histAppend h es = (h ++ es).drop ((h ++ es).length - 20) := by
  induction es with
  | nil =>
      intro h hh
      have h0 : h.length - 20 = 0 := by omega
      simp only [List.foldl_nil, List.append_nil, h0, List.drop_zero]
  | cons e es ih =>
      intro h hh
      rw [List.foldl_cons, ih _ (histAppend_length_le h e hh), histAppend_eq_lastN,
        drop_sub_twenty_append]
      simp only [List.append_assoc, List.singleton_append]

theorem chatbot_fold_hist (es : List Entry) :
    ∀ cb : ChatbotState,
      (es.foldl ChatbotState.add_to_history cb).conversation_history
        = es.foldl histAppend cb.conversation_history := by
  induction es with
  | nil => intro cb; rfl
  | cons e es ih =>
      intro cb
      rw [List.foldl_cons, List.foldl_cons, ih]
      rfl

theorem usercontrol_fold_hist (es : List Entry) :
    ∀ uc : UserControlState,
      (es.foldl UserControlState.add_to_history uc).conversation_history
        = es.foldl histAppend uc.conversation_history := by
  induction es with
  | nil => intro uc; rfl
  | cons e es ih =>
      intro uc
      rw [List.foldl_cons, List.foldl_cons, ih]
      rfl

/-- Recording any entry sequence into a delegate with empty history — of
either kind — leaves exactly the trailing 20 entries, in order of
recording, so the bounded history never exceeds 20 entries and evicts the
oldest first.  Quantifying over every sequence covers the state after every
individual call. -/
theorem delegate_history_bound (es : List Entry) (cb : ChatbotState)
    (uc : UserControlState) :
    (es.foldl ChatbotState.add_to_history { cb with conversation_history := [] }).conversation_history
      = es.drop (es.length - 20) ∧
    (es.foldl UserControlState.add_to_history { uc with conversation_history := [] }).conversation_history
      = es.drop (es.length - 20) ∧
    (es.foldl ChatbotState.add_to_history { cb with conversation_history := [] }).conversation_history.length
      ≤ 20 ∧
    (es.foldl UserControlState.add_to_history { uc with conversation_history := [] }).conversation_history.length
      ≤ 20 := by
  have hcb :
      (es.foldl ChatbotState.add_to_history { cb with conversation_history := [] }).conversation_history
        = es.drop (es.length - 20) := by
    rw [chatbot_fold_hist]
    have := foldl_histAppend_eq es [] (by simp)
    simpa using this
  have huc :
      (es.foldl UserControlState.add_to_history { uc with conversation_history := [] }).conversation_history
        = es.drop (es.length - 20) := by
    rw [usercontrol_fold_hist]
    have := foldl_histAppend_eq es [] (by simp)
    simpa using this
  refine ⟨hcb, huc, ?_, ?_⟩
  · rw [hcb, List.length_drop]
    omega
  · rw [huc, List.length_drop]
    omega

/-- The dialogue branch of `Event.apply` equals folding `group.apply_line`
over its call trace: one call per element of a list target and one call for
a single target in every control state, but with no target the uncontrolled
branch makes exactly one call (with `addressed_to` absent) while an actor
under active AI or user control makes none — the controlled branches have
no fallback call for an absent target. -/
theorem dialogue_call_trace (fuel : Nat) (w : World) (actor text : String)
    (target : Event.DialogueTarget) (emo : Option Event.EmotionPayload)
    (ns : List String) (t : String) :
    Event.apply_dialogue fuel w actor target text emo
      = (Event.dialogueCallArgs w.group actor target).foldl
          (fun w' tgt => Group.apply_line fuel w' actor
            (Event.effectiveText w actor target text) tgt (Event.resolveEmotion emo))
          (Event.dialoguePre w actor target) ∧
    Event.dialogueCallArgs w.group actor (.many ns) = ns.map some ∧
    Event.dialogueCallArgs w.group actor (.single t) = [some t] ∧
    Event.dialogueCallArgs w.group actor .noTarget =
      (if Group.chatbotActive w.group actor || Group.userControlActive w.group actor
       then [] else [Option.none]) := by
  refine ⟨?_, ?_, ?_, ?_⟩
  · unfold Event.apply_dialogue Event.dialogueCallArgs Event.dialoguePre Event.effectiveText
    cases hcb : Group.chatbotActive w.group actor
    · cases huc : Group.userControlActive w.group actor
      · cases target <;> simp [hcb, huc, List.foldl_map]
      · cases target <;> simp [hcb, huc, List.foldl_map]
    · cases target <;> simp [hcb, List.foldl_map]
  · unfold Event.dialogueCallArgs
    split_ifs <;> rfl
  · unfold Event.dialogueCallArgs
    split_ifs <;> rfl
  · cases h : (Group.chatbotActive w.group actor || Group.userControlActive w.group actor) <;>
      simp [Event.dialogueCallArgs, h]

/-- Counterexample to the claim as stated: with `a` a member under active
AI control and the target absent, the dialogue branch makes zero
`apply_line` calls (the claim expects one with no target) and leaves the
world untouched. -/
theorem dialogue_call_trace_counterexample :
    "a" ∈ cbWorld.group.members ∧
    Group.chatbotActive cbWorld.group "a" = true ∧
    Event.dialogueCallArgs cbWorld.group "a" Event.DialogueTarget.noTarget = [] ∧
    Event.apply_dialogue 1 cbWorld "a" Event.DialogueTarget.noTarget "line" none = cbWorld := by
  exact ⟨by decide, by decide, by decide, rfl⟩

theorem prefixTension (w : World) (sp : String) (emo : Option Emotion)
    (en : Entry) (a : String) :
    0 ≤ (Group.offenseCheck (Group.attitudeUpdate (Group.broadcastEntry
        (Group.logEntry (Group.bumpTension (Group.setSpeakerEmotion w sp emo) sp) en) en)
        sp a) sp a).group.tension ∧
      (Group.offenseCheck (Group.attitudeUpdate (Group.broadcastEntry
        (Group.logEntry (Group.bumpTension (Group.setSpeakerEmotion w sp emo) sp) en) en)
        sp a) sp a).group.tension ≤ 1 := by
  apply offenseCheck_tension_mem <;>
    rw [attitudeUpdate_tension, broadcastEntry_tension, logEntry_tension]
  · exact (bumpTension_clamped _ _).1
  · exact (bumpTension_clamped _ _).2

theorem applyLineCore_tension
    (reply : World → String → String → Option String → Option Emotion → World)
    (hreply : ∀ w a r s e, 0 ≤ w.group.tension → w.group.tension ≤ 1 →
      0 ≤ (reply w a r s e).group.tension ∧ (reply w a r s e).group.tension ≤ 1)
    (w : World) (sp line : String) (addr : Option String) (emo : Option Emotion)
    (h0 : 0 ≤ w.group.tension) (h1 : w.group.tension ≤ 1) :
    0 ≤ (Group.applyLineCore reply w sp line addr emo).group.tension ∧
      (Group.applyLineCore reply w sp line addr emo).group.tension ≤ 1 := by
  unfold Group.applyLineCore
  split_ifs with hm
  · dsimp only
    rw [update_mood_tension, reactAll_group]
    cases addr with
    | none =>
        rw [broadcastEntry_tension, logEntry_tension]
        exact bumpTension_clamped _ _
    | some a =>
        dsimp only
        split_ifs
        · exact hreply _ _ _ _ _ (prefixTension w sp emo _ a).1
            (prefixTension w sp emo _ a).2
        · exact prefixTension w sp emo _ a
        · exact hreply _ _ _ _ _ (prefixTension w sp emo _ a).1
            (prefixTension w sp emo _ a).2
        · exact prefixTension w sp emo _ a
        · exact prefixTension w sp emo _ a
        · rw [broadcastEntry_tension, logEntry_tension]
          exact bumpTension_clamped _ _
  · exact ⟨h0, h1⟩

theorem apply_line_tension (fuel : Nat) :
    ∀ (w : World) (sp line : String) (addr : Option String) (emo : Option Emotion),
      0 ≤ w.group.tension → w.group.tension ≤ 1 →
      0 ≤ (Group.apply_line fuel w sp line addr emo).group.tension ∧
        (Group.apply_line fuel w sp line addr emo).group.tension ≤ 1 := by
  induction fuel with
  | zero =>
      intro w sp line addr emo h0 h1
      exact applyLineCore_tension _ (fun w a r s e ha hb => ⟨ha, hb⟩) w sp line addr emo h0 h1
  | succ f ih =>
      intro w sp line addr emo h0 h1
      exact applyLineCore_tension _ (fun w a r s e ha hb => ih w a r s e ha hb)
        w sp line addr emo h0 h1

/-- Starting from tension 0, the group tension stays inside the unit
interval after every `apply_line` call of any call sequence, with any
speakers, lines, addressees, emotions, delegates, random draws and reply
fuel. -/
theorem tension_bounds (w : World) (hw : w.group.tension = 0)
    (calls : List LineCall) :
    0 ≤ (runLines w calls).group.tension ∧ (runLines w calls).group.tension ≤ 1 := by
  have key : ∀ (cs : List LineCall) (v : World),
      0 ≤ v.group.tension → v.group.tension ≤ 1 →
      0 ≤ (runLines v cs).group.tension ∧ (runLines v cs).group.tension ≤ 1 := by
    intro cs
    induction cs with
    | nil => intro v h0 h1; exact ⟨h0, h1⟩
    | cons c cs ih =>
        intro v h0 h1
        have hstep := apply_line_tension c.fuel v c.speaker c.text c.addressed_to c.emotion h0 h1
        exact ih _ hstep.1 hstep.2
  exact key calls w (by rw [hw]) (by rw [hw]; norm_num)

/-- Witness: the tension bound instantiated on a concrete fresh world and a
concrete two-call sequence. -/
theorem tension_bounds_witness :
    0 ≤ (runLines world0 [⟨1, "a", "hi", none, some Emotion.ANGRY⟩,
      ⟨0, "b", "yo", some "a", none⟩]).group.tension ∧
    (runLines world0 [⟨1, "a", "hi", none, some Emotion.ANGRY⟩,
      ⟨0, "b", "yo", some "a", none⟩]).group.tension ≤ 1 :=
  tension_bounds world0 rfl _

theorem dictGet?_mapVal {κ ν : Type} [DecidableEq κ] (f : ν → ν)
    (l : List (κ × ν)) (k : κ) :
    dictGet? (l.map (fun p => (p.1, f p.2))) k = (dictGet? l k).map f := by
  induction l with
  | nil => rfl
  | cons p rest ih =>
      simp only [List.map_cons, dictGet?]
      split_ifs with h
      · rfl
      · exact ih

theorem broadcastEntry_get (w : World) (e : Entry) (n : String) :
    dictGet? (Group.broadcastEntry w e).group.chatbots n
      = (dictGet? w.group.chatbots n).map
          (fun cb => if cb.is_active then cb.add_to_history e else cb) := by
  unfold Group.broadcastEntry
  dsimp only
  exact dictGet?_mapVal (fun cb => if cb.is_active then cb.add_to_history e else cb)
    w.group.chatbots n

theorem prefixUcs (w : World) (sp : String) (emo : Option Emotion)
    (en : Entry) (a : String) :
    (Group.offenseCheck (Group.attitudeUpdate (Group.broadcastEntry
        (Group.logEntry (Group.bumpTension (Group.setSpeakerEmotion w sp emo) sp) en) en)
        sp a) sp a).group.user_controls = w.group.user_controls := by
  rw [offenseCheck_ucs, attitudeUpdate_ucs, broadcastEntry_ucs, logEntry_ucs,
    bumpTension_ucs, setSpeakerEmotion_group]

theorem prefixUcsShort (w : World) (sp : String) (emo : Option Emotion) (en : Entry) :
    (Group.broadcastEntry
        (Group.logEntry (Group.bumpTension (Group.setSpeakerEmotion w sp emo) sp) en)
        en).group.user_controls = w.group.user_controls := by
  rw [broadcastEntry_ucs, logEntry_ucs, bumpTension_ucs, setSpeakerEmotion_group]

theorem applyLineCore_ucs
    (reply : World → String → String → Option String → Option Emotion → World)
    (hreply : ∀ w a r s e,
      (reply w a r s e).group.user_controls = w.group.user_controls)
    (w : World) (sp line : String) (addr : Option String) (emo : Option Emotion) :
    (Group.applyLineCore reply w sp line addr emo).group.user_controls
      = w.group.user_controls := by
  unfold Group.applyLineCore
  split_ifs with hm
  · dsimp only
    rw [update_mood_ucs, reactAll_group]
    cases addr with
    | none => exact prefixUcsShort w sp emo _
    | some a =>
        dsimp only
        split_ifs
        · rw [hreply]
          exact prefixUcs w sp emo _ a
        · exact prefixUcs w sp emo _ a
        · rw [hreply]
          exact prefixUcs w sp emo _ a
        · exact prefixUcs w sp emo _ a
        · exact prefixUcs w sp emo _ a
        · exact prefixUcsShort w sp emo _
  · rfl

theorem apply_line_ucs (fuel : Nat) :
    ∀ (w : World) (sp line : String) (addr : Option String) (emo : Option Emotion),
      (Group.apply_line fuel w sp line addr emo).group.user_controls
        = w.group.user_controls := by
  induction fuel with
  | zero =>
      intro w sp line addr emo
      exact applyLineCore_ucs _ (fun w a r s e => rfl) w sp line addr emo
  | succ f ih =>
      intro w sp line addr emo
      exact applyLineCore_ucs _ (fun w a r s e => ih w a r s e) w sp line addr emo

theorem prefixChatbots_get (w : World) (sp : String) (emo : Option Emotion)
    (en : Entry) (a n : String) :
    dictGet? (Group.offenseCheck (Group.attitudeUpdate (Group.broadcastEntry
        (Group.logEntry (Group.bumpTension (Group.setSpeakerEmotion w sp emo) sp) en) en)
        sp a) sp a).group.chatbots n
      = (dictGet? w.group.chatbots n).map
          (fun cb => if cb.is_active then cb.add_to_history en else cb) := by
  rw [offenseCheck_chatbots, attitudeUpdate_chatbots, broadcastEntry_get,
    logEntry_chatbots, bumpTension_chatbots, setSpeakerEmotion_group]

theorem prefixChatbotsShort_get (w : World) (sp : String) (emo : Option Emotion)
    (en : Entry) (n : String) :
    dictGet? (Group.broadcastEntry
        (Group.logEntry (Group.bumpTension (Group.setSpeakerEmotion w sp emo) sp) en)
        en).group.chatbots n
      = (dictGet? w.group.chatbots n).map
          (fun cb => if cb.is_active then cb.add_to_history en else cb) := by
  rw [broadcastEntry_get, logEntry_chatbots, bumpTension_chatbots, setSpeakerEmotion_group]

theorem foldl_histAppend_ite (hist : List Entry) (b : Bool) (e : Entry)
    (l : List Entry) :
    List.foldl histAppend (if b then histAppend hist e else hist) l
      = List.foldl histAppend hist ((if b then [e] else []) ++ l) := by
  cases b <;> simp [List.foldl_append]

theorem applyLineCore_chatbotHist
    (reply : World → String → String → Option String → Option Emotion → World)
    (hreply : ∀ w a r s e n cb, dictGet? w.group.chatbots n = some cb →
      ∃ cb' l, dictGet? (reply w a r s e).group.chatbots n = some cb' ∧
        cb'.conversation_history = List.foldl histAppend cb.conversation_history l ∧
        cb'.is_active = cb.is_active)
    (w : World) (sp line : String) (addr : Option String) (emo : Option Emotion)
    (n : String) (cb : ChatbotState)
    (hget : dictGet? w.group.chatbots n = some cb) :
    ∃ cb' l,
      dictGet? (Group.applyLineCore reply w sp line addr emo).group.chatbots n = some cb' ∧
      cb'.conversation_history = List.foldl histAppend cb.conversation_history l ∧
      cb'.is_active = cb.is_active ∧
      (sp ∈ w.group.members → cb.is_active = true →
        ∃ rest, l = Group.dialogueRecord
          (Group.bumpTension (Group.setSpeakerEmotion w sp emo) sp) sp line addr :: rest) := by
  unfold Group.applyLineCore
  split_ifs with hm
  · dsimp only
    rw [update_mood_chatbots, reactAll_group]
    cases addr with
    | none =>
        generalize Group.dialogueRecord
          (Group.bumpTension (Group.setSpeakerEmotion w sp emo) sp) sp line none = ent
        cases hact : cb.is_active with
        | true =>
            refine ⟨cb.add_to_history ent, [ent], ?_, rfl, hact, fun _ _ => ⟨[], rfl⟩⟩
            rw [prefixChatbotsShort_get, hget]
            simp [hact]
        | false =>
            refine ⟨cb, [], ?_, rfl, hact, fun _ hc => by simp at hc⟩
            rw [prefixChatbotsShort_get, hget]
            simp [hact]
    | some a =>
        dsimp only
        generalize Group.dialogueRecord
          (Group.bumpTension (Group.setSpeakerEmotion w sp emo) sp) sp line (some a) = ent
        cases hact : cb.is_active with
        | true =>
            have hB : dictGet? (Group.offenseCheck (Group.attitudeUpdate
                (Group.broadcastEntry (Group.logEntry
                  (Group.bumpTension (Group.setSpeakerEmotion w sp emo) sp) ent) ent)
                sp a) sp a).group.chatbots n = some (cb.add_to_history ent) := by
              rw [prefixChatbots_get, hget]
              simp [hact]
            split_ifs with hcb hr huc hr2
            · obtain ⟨cb'', l₂, hg, hh, hA⟩ := hreply _ _ _ _ _ n _ hB
              refine ⟨cb'', ent :: l₂, hg, ?_, hA.trans hact, fun _ _ => ⟨l₂, rfl⟩⟩
              rw [hh]
              rfl
            · exact ⟨cb.add_to_history ent, [ent], hB, rfl, hact, fun _ _ => ⟨[], rfl⟩⟩
            · obtain ⟨cb'', l₂, hg, hh, hA⟩ := hreply _ _ _ _ _ n _ hB
              refine ⟨cb'', ent :: l₂, hg, ?_, hA.trans hact, fun _ _ => ⟨l₂, rfl⟩⟩
              rw [hh]
              rfl
            · exact ⟨cb.add_to_history ent, [ent], hB, rfl, hact, fun _ _ => ⟨[], rfl⟩⟩
            · exact ⟨cb.add_to_history ent, [ent], hB, rfl, hact, fun _ _ => ⟨[], rfl⟩⟩
            · refine ⟨cb.add_to_history ent, [ent], ?_, rfl, hact, fun _ _ => ⟨[], rfl⟩⟩
              rw [prefixChatbotsShort_get, hget]
              simp [hact]
        | false =>
            have hB : dictGet? (Group.offenseCheck (Group.attitudeUpdate
                (Group.broadcastEntry (Group.logEntry
                  (Group.bumpTension (Group.setSpeakerEmotion w sp emo) sp) ent) ent)
                sp a) sp a).group.chatbots n = some cb := by
              rw [prefixChatbots_get, hget]
              simp [hact]
            split_ifs with hcb hr huc hr2
            · obtain ⟨cb'', l₂, hg, hh, hA⟩ := hreply _ _ _ _ _ n _ hB
              exact ⟨cb'', l₂, hg, hh, hA.trans hact, fun _ hc => by simp at hc⟩
            · exact ⟨cb, [], hB, rfl, hact, fun _ hc => by simp at hc⟩
            · obtain ⟨cb'', l₂, hg, hh, hA⟩ := hreply _ _ _ _ _ n _ hB
              exact ⟨cb'', l₂, hg, hh, hA.trans hact, fun _ hc => by simp at hc⟩
            · exact ⟨cb, [], hB, rfl, hact, fun _ hc => by simp at hc⟩
            · exact ⟨cb, [], hB, rfl, hact, fun _ hc => by simp at hc⟩
            · refine ⟨cb, [], ?_, rfl, hact, fun _ hc => by simp at hc⟩
              rw [prefixChatbotsShort_get, hget]
              simp [hact]
  · exact ⟨cb, [], hget, rfl, rfl, fun hmem _ => absurd hmem hm⟩

theorem apply_line_chatbotHist (fuel : Nat) :
    ∀ (w : World) (sp line : String) (addr : Option String) (emo : Option Emotion)
      (n : String) (cb : ChatbotState),
      dictGet? w.group.chatbots n = some cb →
      ∃ cb' l,
        dictGet? (Group.apply_line fuel w sp line addr emo).group.chatbots n = some cb' ∧
        cb'.conversation_history = List.foldl histAppend cb.conversation_history l ∧
        cb'.is_active = cb.is_active ∧
        (sp ∈ w.group.members → cb.is_active = true →
          ∃ rest, l = Group.dialogueRecord
            (Group.bumpTension (Group.setSpeakerEmotion w sp emo) sp) sp line addr :: rest) := by
  induction fuel with
  | zero =>
      intro w sp line addr emo n cb hget
      exact applyLineCore_chatbotHist _ (fun w a r s e n cb hg => ⟨cb, [], hg, rfl, rfl⟩)
        w sp line addr emo n cb hget
  | succ f ih =>
      intro w sp line addr emo n cb hget
      refine applyLineCore_chatbotHist _ (fun w a r s e n cb hg => ?_)
        w sp line addr emo n cb hget
      obtain ⟨cb', l, h1, h2, h3, _⟩ := ih w a r s e n cb hg
      exact ⟨cb', l, h1, h2, h3⟩

/-- Every `apply_line` call leaves all user-control delegates (histories
and flags) untouched, and, when the speaker is a member, appends the
dialogue record first to the bounded history of every active chatbot
delegate (possibly followed by the records of recursively triggered
replies). -/
theorem apply_line_delegate_history (fuel : Nat) (w : World) (sp line : String)
    (addr : Option String) (emo : Option Emotion) :
    (Group.apply_line fuel w sp line addr emo).group.user_controls
      = w.group.user_controls ∧
    (sp ∈ w.group.members → ∀ n cb, dictGet? w.group.chatbots n = some cb →
      cb.is_active = true →
      ∃ cb' rest,
        dictGet? (Group.apply_line fuel w sp line addr emo).group.chatbots n = some cb' ∧
        cb'.conversation_history = List.foldl histAppend cb.conversation_history
          (Group.dialogueRecord (Group.bumpTension (Group.setSpeakerEmotion w sp emo) sp)
            sp line addr :: rest)) := by
  refine ⟨apply_line_ucs fuel w sp line addr emo, fun hm n cb hget hact => ?_⟩
  obtain ⟨cb', l, h1, h2, _, hhead⟩ :=
    apply_line_chatbotHist fuel w sp line addr emo n cb hget
  obtain ⟨rest, hrest⟩ := hhead hm hact
  exact ⟨cb', rest, h1, by rw [h2, hrest]⟩

/-- Witness: in the concrete one-member world with an active chatbot, the
call leaves the user controls unchanged and appends the dialogue record to
the chatbot's history. -/
theorem apply_line_delegate_history_witness :
    (Group.apply_line 1 cbWorld "a" "hi" none none).group.user_controls
      = cbWorld.group.user_controls ∧
    ∃ cb' rest,
      dictGet? (Group.apply_line 1 cbWorld "a" "hi" none none).group.chatbots "a" = some cb' ∧
      cb'.conversation_history = List.foldl histAppend exampleChatbot.conversation_history
        (Group.dialogueRecord (Group.bumpTension (Group.setSpeakerEmotion cbWorld "a" none) "a")
          "a" "hi" none :: rest) :=
  ⟨(apply_line_delegate_history 1 cbWorld "a" "hi" none none).1,
   (apply_line_delegate_history 1 cbWorld "a" "hi" none none).2 (by decide) "a"
     exampleChatbot rfl rfl⟩

/-- Counterexample to the claim as stated: `a` is a member and under an
active user-control delegate with empty history, yet after `apply_line`
the delegate's history is still empty — the dialogue record is never
appended to user-control (human-choice) delegates. -/
theorem apply_line_usercontrol_counterexample :
    "a" ∈ ucWorld.group.members ∧
    (dictGet? ucWorld.group.user_controls "a").map UserControlState.is_active = some true ∧
    (dictGet? (Group.apply_line 1 ucWorld "a" "hi" none none).group.user_controls "a").map
      UserControlState.conversation_history = some [] := by
  refine ⟨by decide, rfl, ?_⟩
  rw [apply_line_ucs]
  rfl

section DictLemmas

variable {κ ν : Type} [DecidableEq κ]

theorem dictGet?_set (d : List (κ × ν)) (k : κ) (v : ν) (k' : κ) :
    dictGet? (dictSet d k v) k' = if k' = k then some v else dictGet? d k' := by
  induction d with
  | nil => simp [dictSet, dictGet?]
  | cons p rest ih =>
      obtain ⟨a, b⟩ := p
      by_cases h1 : a = k
      · subst h1
        by_cases h2 : k' = a <;> simp [dictSet, dictGet?, h2]
      · by_cases h2 : k' = a
        · subst h2
          simp [dictSet, dictGet?, h1, Ne.symm h1]
        · simp [dictSet, dictGet?, h1, h2, ih, Ne.symm h1]

theorem dictGet?_modify (d : List (κ × ν)) (k : κ) (f : ν → ν) (k' : κ) :
    dictGet? (dictModify d k f) k'
      = if k' = k then (dictGet? d k).map f else dictGet? d k' := by
  induction d with
  | nil => simp [dictModify, dictGet?]
  | cons p rest ih =>
      obtain ⟨a, b⟩ := p
      by_cases h1 : a = k
      · subst h1
        by_cases h2 : k' = a <;> simp [dictModify, dictGet?, h2]
      · by_cases h2 : k' = a
        · subst h2
          simp [dictModify, dictGet?, h1, Ne.symm h1]
        · simp [dictModify, dictGet?, h1, h2, ih, Ne.symm h1]

theorem mem_dictSet (d : List (κ × ν)) (k : κ) (v : ν) (p : κ × ν)
    (hp : p ∈ dictSet d k v) : p = (k, v) ∨ p ∈ d := by
  induction d with
  | nil => simpa [dictSet] using hp
  | cons q rest ih =>
      obtain ⟨a, b⟩ := q
      by_cases h1 : a = k
      · subst h1
        simp only [dictSet, if_pos rfl] at hp
        rcases List.mem_cons.mp hp with h | h
        · exact Or.inl h
        · exact Or.inr (List.mem_cons_of_mem _ h)
      · simp only [dictSet, if_neg h1] at hp
        rcases List.mem_cons.mp hp with h | h
        · exact Or.inr (by simp [h])
        · rcases ih h with h' | h'
          · exact Or.inl h'
          · exact Or.inr (List.mem_cons_of_mem _ h')

theorem mem_dictModify (d : List (κ × ν)) (k : κ) (f : ν → ν) (p : κ × ν)
    (hp : p ∈ dictModify d k f) : p ∈ d ∨ ∃ v, (k, v) ∈ d ∧ p = (k, f v) := by
  induction d with
  | nil => simp [dictModify] at hp
  | cons q rest ih =>
      obtain ⟨a, b⟩ := q
      by_cases h1 : a = k
      · subst h1
        simp only [dictModify, if_pos rfl] at hp
        rcases List.mem_cons.mp hp with h | h
        · exact Or.inr ⟨b, by simp, h⟩
        · exact Or.inl (List.mem_cons_of_mem _ h)
      · simp only [dictModify, if_neg h1] at hp
        rcases List.mem_cons.mp hp with h | h
        · exact Or.inl (by simp [h])
        · rcases ih h with h' | ⟨v, hv, hpv⟩
          · exact Or.inl (List.mem_cons_of_mem _ h')
          · exact Or.inr ⟨v, List.mem_cons_of_mem _ hv, hpv⟩

theorem mem_dictErase (d : List (κ × ν)) (k : κ) (p : κ × ν)
    (hp : p ∈ dictErase d k) : p ∈ d := by
  induction d with
  | nil => simp [dictErase] at hp
  | cons q rest ih =>
      obtain ⟨a, b⟩ := q
      by_cases h1 : a = k
      · subst h1
        simp only [dictErase, if_pos rfl] at hp
        exact List.mem_cons_of_mem _ hp
      · simp only [dictErase, if_neg h1] at hp
        rcases List.mem_cons.mp hp with h | h
        · exact by simp [h]
        · exact List.mem_cons_of_mem _ (ih h)

theorem keys_dictModify (d : List (κ × ν)) (k : κ) (f : ν → ν) :
    (dictModify d k f).map Prod.fst = d.map Prod.fst := by
  induction d with
  | nil => rfl
  | cons q rest ih =>
      obtain ⟨a, b⟩ := q
      by_cases h1 : a = k <;> simp [dictModify, h1, ih]

theorem keys_dictSet_nodup (d : List (κ × ν)) (k : κ) (v : ν)
    (h : (d.map Prod.fst).Nodup) : ((dictSet d k v).map Prod.fst).Nodup := by
  induction d with
  | nil => simp [dictSet]
  | cons q rest ih =>
      obtain ⟨a, b⟩ := q
      simp only [List.map_cons, List.nodup_cons] at h
      by_cases h1 : a = k
      · subst h1
        simpa [dictSet] using h
      · have hrest := ih h.2
        simp only [dictSet, if_neg h1, List.map_cons, List.nodup_cons]
        refine ⟨?_, hrest⟩
        intro hmem
        rcases List.mem_map.mp hmem with ⟨p, hp, hfst⟩
        rcases mem_dictSet rest k v p hp with h' | h'
        · exact h1 (by rw [← hfst, h'])
        · exact h.1 (List.mem_map.mpr ⟨p, h', hfst⟩)

theorem keys_dictErase_sublist (d : List (κ × ν)) (k : κ) :
    ((dictErase d k).map Prod.fst).Sublist (d.map Prod.fst) := by
  induction d with
  | nil => simp [dictErase]
  | cons q rest ih =>
      obtain ⟨a, b⟩ := q
      by_cases h1 : a = k
      · subst h1
        simp only [dictErase, if_pos rfl, List.map_cons]
        exact List.sublist_cons_self _ _
      · simp only [dictErase, if_neg h1, List.map_cons]
        exact ih.cons₂ _

theorem keys_dictErase_nodup (d : List (κ × ν)) (k : κ)
    (h : (d.map Prod.fst).Nodup) : ((dictErase d k).map Prod.fst).Nodup :=
  (keys_dictErase_sublist d k).nodup h

theorem dictGet?_erase_ne (d : List (κ × ν)) (k k' : κ) (h : k' ≠ k) :
    dictGet? (dictErase d k) k' = dictGet? d k' := by
  induction d with
  | nil => rfl
  | cons q rest ih =>
      obtain ⟨a, b⟩ := q
      by_cases h1 : a = k
      · subst h1
        simp [dictErase, dictGet?, h]
      · simp [dictErase, dictGet?, h1, ih]

theorem mem_of_dictGet? (d : List (κ × ν)) (k : κ) (v : ν)
    (h : dictGet? d k = some v) : (k, v) ∈ d := by
  induction d with
  | nil => simp [dictGet?] at h
  | cons q rest ih =>
      obtain ⟨a, b⟩ := q
      simp only [dictGet?] at h
      split_ifs at h with h1
      · subst h1
        injection h with h2
        subst h2
        exact List.mem_cons_self _ _
      · exact List.mem_cons_of_mem _ (ih h)

theorem dictGet?_erase_self (d : List (κ × ν)) (k : κ)
    (h : (d.map Prod.fst).Nodup) : dictGet? (dictErase d k) k = none := by
  induction d with
  | nil => rfl
  | cons q rest ih =>
      obtain ⟨a, b⟩ := q
      simp only [List.map_cons, List.nodup_cons] at h
      by_cases h1 : a = k
      · subst h1
        simp only [dictErase, if_pos rfl]
        cases hg : dictGet? rest a with
        | none => exact hg
        | some v =>
            exfalso
            exact h.1 (List.mem_map.mpr ⟨(a, v), mem_of_dictGet? rest a v hg, rfl⟩)
      · simp [dictErase, dictGet?, h1, Ne.symm h1, ih h.2]

theorem mem_dictErase_ne (d : List (κ × ν)) (k : κ) (p : κ × ν)
    (h : (d.map Prod.fst).Nodup) (hp : p ∈ dictErase d k) : p.1 ≠ k := by
  induction d with
  | nil => simp [dictErase] at hp
  | cons q rest ih =>
      obtain ⟨a, b⟩ := q
      simp only [List.map_cons, List.nodup_cons] at h
      by_cases h1 : a = k
      · subst h1
        simp only [dictErase, if_pos rfl] at hp
        intro hk
        exact h.1 (List.mem_map.mpr ⟨p, hp, hk⟩)
      · simp only [dictErase, if_neg h1] at hp
        rcases List.mem_cons.mp hp with hq | hq
        · rw [hq]
          exact h1
        · exact ih h.2 hq

theorem dictGet?_isSome_iff (d : List (κ × ν)) (k : κ) :
    (dictGet? d k).isSome ↔ k ∈ d.map Prod.fst := by
  induction d with
  | nil => simp [dictGet?]
  | cons q rest ih =>
      obtain ⟨a, b⟩ := q
      by_cases h1 : k = a
      · subst h1
        simp [dictGet?]
      · simp [dictGet?, h1, ih]

theorem dictGet?_of_mem_nodup (d : List (κ × ν)) (p : κ × ν)
    (h : (d.map Prod.fst).Nodup) (hp : p ∈ d) : dictGet? d p.1 = some p.2 := by
  induction d with
  | nil => simp at hp
  | cons q rest ih =>
      obtain ⟨a, b⟩ := q
      simp only [List.map_cons, List.nodup_cons] at h
      rcases List.mem_cons.mp hp with hq | hq
      · rw [hq]
        simp [dictGet?]
      · have hne : p.1 ≠ a := by
          intro he
          exact h.1 (List.mem_map.mpr ⟨p, hq, he⟩)
        simp [dictGet?, hne, ih h.2 hq]

end DictLemmas

theorem ginv_congr (g g' : GroupState) (hm : g'.members = g.members)
    (he : g'.emotions = g.emotions) (h : GInv g) : GInv g' := by
  unfold GInv entryPresent at *
  rw [hm, he]
  exact h

theorem ginv_init : GInv GroupState.init := by
  refine ⟨List.nodup_nil, ?_, ?_, ?_, ?_, ?_, ?_⟩ <;> simp [GroupState.init]

theorem ginv_attitude (g : GroupState) (a sp : String) (E : Emotion)
    (hg : GInv g) (hsp : sp ∈ g.members) :
    GInv { g with emotions := dictModify g.emotions a (fun inner => dictSet inner sp E) } := by
  obtain ⟨h1, h2, h3, h4, h5, h6, h7⟩ := hg
  refine ⟨h1, ?_, ?_, ?_, ?_, ?_, ?_⟩ <;> dsimp only
  · rw [keys_dictModify]
    exact h2
  · intro p hp
    rcases mem_dictModify _ _ _ p hp with h | ⟨v, hv, hpv⟩
    · exact h3 p h
    · subst hpv
      exact keys_dictSet_nodup _ _ _ (h3 (a, v) hv)
  · intro p hp
    rcases mem_dictModify _ _ _ p hp with h | ⟨v, hv, hpv⟩
    · exact h4 p h
    · subst hpv
      exact h4 (a, v) hv
  · intro p hp q hq
    rcases mem_dictModify _ _ _ p hp with h | ⟨v, hv, hpv⟩
    · exact h5 p h q hq
    · subst hpv
      rcases mem_dictSet _ _ _ q hq with h' | h'
      · rw [h']
        exact hsp
      · exact h5 (a, v) hv q h'
  · intro x hx
    have hbase := h6 x hx
    rw [dictGet?_modify]
    split_ifs with hxa
    · rw [← hxa]
      cases ho : dictGet? g.emotions x with
      | none => rw [ho] at hbase; simp at hbase
      | some i => simp
    · exact hbase
  · intro x hx y hy hxy
    obtain ⟨inner, hi, hib⟩ := h7 x hx y hy hxy
    unfold entryPresent
    rw [dictGet?_modify]
    split_ifs with hxa
    · refine ⟨dictSet inner sp E, ?_, ?_⟩
      · rw [← hxa, hi]
        rfl
      · rw [dictGet?_set]
        split_ifs <;> simp [hib]
    · exact ⟨inner, hi, hib⟩

theorem ginv_attitudeUpdate (w : World) (sp a : String)
    (hg : GInv w.group) (hsp : sp ∈ w.group.members) :
    GInv (Group.attitudeUpdate w sp a).group := by
  unfold Group.attitudeUpdate
  dsimp only
  split_ifs
  · exact ginv_attitude w.group a sp Emotion.FRIENDLY hg hsp
  · exact ginv_attitude w.group a sp Emotion.HOSTILE hg hsp
  · exact hg

theorem ginv_prefixShort (w : World) (sp : String) (emo : Option Emotion)
    (en : Entry) (hg : GInv w.group) :
    GInv (Group.broadcastEntry
      (Group.logEntry (Group.bumpTension (Group.setSpeakerEmotion w sp emo) sp) en)
      en).group := by
  refine ginv_congr w.group _ ?_ ?_ hg
  · rw [broadcastEntry_members, logEntry_members, bumpTension_members,
      setSpeakerEmotion_group]
  · rw [broadcastEntry_emotions, logEntry_emotions, bumpTension_emotions,
      setSpeakerEmotion_group]

theorem ginv_prefixFull (w : World) (sp : String) (emo : Option Emotion)
    (en : Entry) (a : String) (hg : GInv w.group) (hsp : sp ∈ w.group.members) :
    GInv (Group.offenseCheck (Group.attitudeUpdate (Group.broadcastEntry
      (Group.logEntry (Group.bumpTension (Group.setSpeakerEmotion w sp emo) sp) en) en)
      sp a) sp a).group := by
  refine ginv_congr _ _ (offenseCheck_members _ _ _) (offenseCheck_emotions _ _ _) ?_
  refine ginv_attitudeUpdate _ sp a (ginv_prefixShort w sp emo en hg) ?_
  rw [broadcastEntry_members, logEntry_members, bumpTension_members,
    setSpeakerEmotion_group]
  exact hsp

theorem applyLineCore_ginv
    (reply : World → String → String → Option String → Option Emotion → World)
    (hreply : ∀ w a r s e, GInv w.group → GInv (reply w a r s e).group)
    (w : World) (sp line : String) (addr : Option String) (emo : Option Emotion)
    (hg : GInv w.group) :
    GInv (Group.applyLineCore reply w sp line addr emo).group := by
  unfold Group.applyLineCore
  split_ifs with hm
  · dsimp only
    refine ginv_congr _ _ (update_mood_members _ _) (update_mood_emotions _ _) ?_
    rw [reactAll_group]
    cases addr with
    | none => exact ginv_prefixShort w sp emo _ hg
    | some a =>
        dsimp only
        split_ifs
        · exact hreply _ _ _ _ _ (ginv_prefixFull w sp emo _ a hg hm)
        · exact ginv_prefixFull w sp emo _ a hg hm
        · exact hreply _ _ _ _ _ (ginv_prefixFull w sp emo _ a hg hm)
        · exact ginv_prefixFull w sp emo _ a hg hm
        · exact ginv_prefixFull w sp emo _ a hg hm
        · exact ginv_prefixShort w sp emo _ hg
  · exact hg

theorem apply_line_ginv (fuel : Nat) :
    ∀ (w : World) (sp line : String) (addr : Option String) (emo : Option Emotion),
      GInv w.group → GInv (Group.apply_line fuel w sp line addr emo).group := by
  induction fuel with
  | zero =>
      intro w sp line addr emo hg
      exact applyLineCore_ginv _ (fun w a r s e h => h) w sp line addr emo hg
  | succ f ih =>
      intro w sp line addr emo hg
      exact applyLineCore_ginv _ (fun w a r s e h => ih w a r s e h) w sp line addr emo hg

theorem seedStep_keys (σ : Store) (ch : String)
    (em : List (String × List (String × Emotion))) (c : String) :
    (Group.addSeedStep σ ch em c).map Prod.fst = em.map Prod.fst := by
  unfold Group.addSeedStep
  split_ifs
  · rfl
  · dsimp only
    rw [keys_dictModify, keys_dictModify]

theorem seedFold_keys (σ : Store) (ch : String) :
    ∀ (l : List String) (em : List (String × List (String × Emotion))),
      ((l.foldl (Group.addSeedStep σ ch) em).map Prod.fst) = em.map Prod.fst := by
  intro l
  induction l with
  | nil => intro em; rfl
  | cons c rest ih =>
      intro em
      rw [List.foldl_cons, ih, seedStep_keys]

theorem entryPresent_modifySet (em : List (String × List (String × Emotion)))
    (k x : String) (E : Emotion) (a b : String) (h : entryPresent em a b) :
    entryPresent (dictModify em k (fun i => dictSet i x E)) a b := by
  obtain ⟨inner, hi, hib⟩ := h
  unfold entryPresent
  rw [dictGet?_modify]
  split_ifs with hak
  · refine ⟨dictSet inner x E, ?_, ?_⟩
    · rw [← hak, hi]
      rfl
    · rw [dictGet?_set]
      split_ifs <;> simp [hib]
  · exact ⟨inner, hi, hib⟩

theorem seedStep_mono (σ : Store) (ch : String)
    (em : List (String × List (String × Emotion))) (c a b : String)
    (h : entryPresent em a b) :
    entryPresent (Group.addSeedStep σ ch em c) a b := by
  unfold Group.addSeedStep
  split_ifs
  · exact h
  · dsimp only
    exact entryPresent_modifySet _ _ _ _ _ _ (entryPresent_modifySet _ _ _ _ _ _ h)

theorem seedFold_mono (σ : Store) (ch : String) :
    ∀ (l : List String) (em : List (String × List (String × Emotion))) (a b : String),
      entryPresent em a b →
      entryPresent (l.foldl (Group.addSeedStep σ ch) em) a b := by
  intro l
  induction l with
  | nil => intro em a b h; exact h
  | cons c rest ih =>
      intro em a b h
      rw [List.foldl_cons]
      exact ih _ a b (seedStep_mono σ ch em c a b h)

theorem seedStep_isSome (σ : Store) (ch : String)
    (em : List (String × List (String × Emotion))) (c x : String) :
    (dictGet? (Group.addSeedStep σ ch em c) x).isSome
      ↔ (dictGet? em x).isSome := by
  rw [dictGet?_isSome_iff, dictGet?_isSome_iff, seedStep_keys]

theorem seedStep_covers (σ : Store) (ch : String)
    (em : List (String × List (String × Emotion))) (c : String)
    (hc : c ≠ ch) (hch : (dictGet? em ch).isSome) (hcc : (dictGet? em c).isSome) :
    entryPresent (Group.addSeedStep σ ch em c) ch c ∧
    entryPresent (Group.addSeedStep σ ch em c) c ch := by
  obtain ⟨i1, hi1⟩ := Option.isSome_iff_exists.mp hch
  obtain ⟨i2, hi2⟩ := Option.isSome_iff_exists.mp hcc
  unfold Group.addSeedStep
  split_ifs with h
  · exact absurd h hc
  · dsimp only
    constructor
    · unfold entryPresent
      rw [dictGet?_modify, if_neg (Ne.symm hc), dictGet?_modify, if_pos rfl, hi1]
      refine ⟨dictSet i1 c (Group.seedAttitude σ ch c), rfl, ?_⟩
      rw [dictGet?_set, if_pos rfl]
      rfl
    · unfold entryPresent
      rw [dictGet?_modify, if_pos rfl, dictGet?_modify, if_neg hc, hi2]
      refine ⟨dictSet i2 ch (Group.seedAttitude σ c ch), rfl, ?_⟩
      rw [dictGet?_set, if_pos rfl]
      rfl

theorem seedFold_covers (σ : Store) (ch : String) :
    ∀ (l : List String) (em : List (String × List (String × Emotion))),
      (dictGet? em ch).isSome → (∀ c ∈ l, (dictGet? em c).isSome) →
      ∀ c ∈ l, c ≠ ch →
        entryPresent (l.foldl (Group.addSeedStep σ ch) em) ch c ∧
        entryPresent (l.foldl (Group.addSeedStep σ ch) em) c ch := by
  intro l
  induction l with
  | nil => intro em _ _ c hc; simp at hc
  | cons c0 rest ih =>
      intro em hch hall c hc hne
      rw [List.foldl_cons]
      rcases List.mem_cons.mp hc with rfl | hcr
      · have hstep := seedStep_covers σ ch em c hne hch
          (hall c (List.mem_cons_self _ _))
        exact ⟨seedFold_mono σ ch rest _ ch c hstep.1,
          seedFold_mono σ ch rest _ c ch hstep.2⟩
      · refine ih (Group.addSeedStep σ ch em c0) ?_ ?_ c hcr hne
        · rw [seedStep_isSome]
          exact hch
        · intro d hd
          rw [seedStep_isSome]
          exact hall d (List.mem_cons_of_mem _ hd)

theorem entries_modifySet (ms : List String)
    (em : List (String × List (String × Emotion))) (k x : String) (E : Emotion)
    (hx : x ∈ ms)
    (H : (∀ p ∈ em, (p.2.map Prod.fst).Nodup) ∧ (∀ p ∈ em, p.1 ∈ ms) ∧
      (∀ p ∈ em, ∀ q ∈ p.2, q.1 ∈ ms)) :
    (∀ p ∈ dictModify em k (fun i => dictSet i x E), (p.2.map Prod.fst).Nodup) ∧
    (∀ p ∈ dictModify em k (fun i => dictSet i x E), p.1 ∈ ms) ∧
    (∀ p ∈ dictModify em k (fun i => dictSet i x E), ∀ q ∈ p.2, q.1 ∈ ms) := by
  obtain ⟨H1, H2, H3⟩ := H
  refine ⟨?_, ?_, ?_⟩
  · intro p hp
    rcases mem_dictModify _ _ _ p hp with h | ⟨v, hv, hpv⟩
    · exact H1 p h
    · subst hpv
      exact keys_dictSet_nodup _ _ _ (H1 (k, v) hv)
  · intro p hp
    rcases mem_dictModify _ _ _ p hp with h | ⟨v, hv, hpv⟩
    · exact H2 p h
    · subst hpv
      exact H2 (k, v) hv
  · intro p hp q hq
    rcases mem_dictModify _ _ _ p hp with h | ⟨v, hv, hpv⟩
    · exact H3 p h q hq
    · subst hpv
      rcases mem_dictSet _ _ _ q hq with h' | h'
      · rw [h']
        exact hx
      · exact H3 (k, v) hv q h'

theorem seedStep_entries (σ : Store) (ch : String) (ms : List String)
    (em : List (String × List (String × Emotion))) (c : String)
    (hc : c ∈ ms) (hch : ch ∈ ms)
    (H : (∀ p ∈ em, (p.2.map Prod.fst).Nodup) ∧ (∀ p ∈ em, p.1 ∈ ms) ∧
      (∀ p ∈ em, ∀ q ∈ p.2, q.1 ∈ ms)) :
    (∀ p ∈ Group.addSeedStep σ ch em c, (p.2.map Prod.fst).Nodup) ∧
    (∀ p ∈ Group.addSeedStep σ ch em c, p.1 ∈ ms) ∧
    (∀ p ∈ Group.addSeedStep σ ch em c, ∀ q ∈ p.2, q.1 ∈ ms) := by
  unfold Group.addSeedStep
  split_ifs
  · exact H
  · dsimp only
    exact entries_modifySet ms _ c ch _ hch (entries_modifySet ms _ ch c _ hc H)

theorem seedFold_entries (σ : Store) (ch : String) (ms : List String) :
    ∀ (l : List String) (em : List (String × List (String × Emotion))),
      (∀ c ∈ l, c ∈ ms) → ch ∈ ms →
      ((∀ p ∈ em, (p.2.map Prod.fst).Nodup) ∧ (∀ p ∈ em, p.1 ∈ ms) ∧
        (∀ p ∈ em, ∀ q ∈ p.2, q.1 ∈ ms)) →
      ((∀ p ∈ l.foldl (Group.addSeedStep σ ch) em, (p.2.map Prod.fst).Nodup) ∧
       (∀ p ∈ l.foldl (Group.addSeedStep σ ch) em, p.1 ∈ ms) ∧
       (∀ p ∈ l.foldl (Group.addSeedStep σ ch) em, ∀ q ∈ p.2, q.1 ∈ ms)) := by
  intro l
  induction l with
  | nil => intro em _ _ H; exact H
  | cons c rest ih =>
      intro em hsub hch H
      rw [List.foldl_cons]
      exact ih _ (fun d hd => hsub d (List.mem_cons_of_mem _ hd)) hch
        (seedStep_entries σ ch ms em c (hsub c (List.mem_cons_self _ _)) hch H)

theorem ginv_add (σ : Store) (g : GroupState) (ch : String) (hg : GInv g) :
    GInv (Group.add σ g ch) := by
  unfold Group.add
  split_ifs with hch
  · exact hg
  · dsimp only
    obtain ⟨h1, h2, h3, h4, h5, h6, h7⟩ := hg
    have hem0some : ∀ c, c ∈ g.members ∨ c = ch →
        (dictGet? (dictSet g.emotions ch ([] : List (String × Emotion))) c).isSome := by
      intro c hc
      rw [dictGet?_set]
      split_ifs with he
      · simp
      · rcases hc with hc | hc
        · exact h6 c hc
        · exact absurd hc he
    refine ⟨?_, ?_, ?_, ?_, ?_, ?_, ?_⟩
    · rw [List.nodup_append]
      exact ⟨h1, List.nodup_singleton ch, by
        intro x hx hx'
        rw [List.mem_singleton] at hx'
        subst hx'
        exact hch hx⟩
    · rw [seedFold_keys]
      exact keys_dictSet_nodup _ _ _ h2
    · refine (seedFold_entries σ ch (g.members ++ [ch]) _ _ (fun c hc => hc)
        (List.mem_append_right _ (List.mem_singleton_self ch)) ⟨?_, ?_, ?_⟩).1
      · intro p hp
        rcases mem_dictSet _ _ _ p hp with h | h
        · rw [h]
          exact List.nodup_nil
        · exact h3 p h
      · intro p hp
        rcases mem_dictSet _ _ _ p hp with h | h
        · rw [h]
          exact List.mem_append_right _ (List.mem_singleton_self ch)
        · exact List.mem_append_left _ (h4 p h)
      · intro p hp q hq
        rcases mem_dictSet _ _ _ p hp with h | h
        · rw [h] at hq
          simp at hq
        · exact List.mem_append_left _ (h5 p h q hq)
    · refine (seedFold_entries σ ch (g.members ++ [ch]) _ _ (fun c hc => hc)
        (List.mem_append_right _ (List.mem_singleton_self ch)) ⟨?_, ?_, ?_⟩).2.1
      · intro p hp
        rcases mem_dictSet _ _ _ p hp with h | h
        · rw [h]
          exact List.nodup_nil
        · exact h3 p h
      · intro p hp
        rcases mem_dictSet _ _ _ p hp with h | h
        · rw [h]
          exact List.mem_append_right _ (List.mem_singleton_self ch)
        · exact List.mem_append_left _ (h4 p h)
      · intro p hp q hq
        rcases mem_dictSet _ _ _ p hp with h | h
        · rw [h] at hq
          simp at hq
        · exact List.mem_append_left _ (h5 p h q hq)
    · refine (seedFold_entries σ ch (g.members ++ [ch]) _ _ (fun c hc => hc)
        (List.mem_append_right _ (List.mem_singleton_self ch)) ⟨?_, ?_, ?_⟩).2.2
      · intro p hp
        rcases mem_dictSet _ _ _ p hp with h | h
        · rw [h]
          exact List.nodup_nil
        · exact h3 p h
      · intro p hp
        rcases mem_dictSet _ _ _ p hp with h | h
        · rw [h]
          exact List.mem_append_right _ (List.mem_singleton_self ch)
        · exact List.mem_append_left _ (h4 p h)
      · intro p hp q hq
        rcases mem_dictSet _ _ _ p hp with h | h
        · rw [h] at hq
          simp at hq
        · exact List.mem_append_left _ (h5 p h q hq)
    · intro a ha
      rw [dictGet?_isSome_iff, seedFold_keys, ← dictGet?_isSome_iff]
      apply hem0some
      rcases List.mem_append.mp ha with h | h
      · exact Or.inl h
      · exact Or.inr (List.mem_singleton.mp h)
    · intro x hx y hy hxy
      rcases List.mem_append.mp hx with hxm | hxc
      · rcases List.mem_append.mp hy with hym | hyc
        · refine seedFold_mono σ ch _ _ x y ?_
          obtain ⟨inner, hi, hib⟩ := h7 x hxm y hym hxy
          refine ⟨inner, ?_, hib⟩
          rw [dictGet?_set, if_neg (by intro he; exact hch (he ▸ hxm))]
          exact hi
        · have hyc := List.mem_singleton.mp hyc
          rw [hyc]
          refine (seedFold_covers σ ch _ _
            (hem0some _ (Or.inr rfl))
            (fun c hc => hem0some c (by
              rcases List.mem_append.mp hc with h | h
              · exact Or.inl h
              · exact Or.inr (List.mem_singleton.mp h)))
            x hx (fun he => hxy (he.trans hyc.symm))).2
      · have hxc := List.mem_singleton.mp hxc
        rw [hxc]
        rcases List.mem_append.mp hy with hym | hyc
        · refine (seedFold_covers σ ch _ _
            (hem0some _ (Or.inr rfl))
            (fun c hc => hem0some c (by
              rcases List.mem_append.mp hc with h | h
              · exact Or.inl h
              · exact Or.inr (List.mem_singleton.mp h)))
            y hy (fun he => hxy (hxc.trans he.symm))).1
        · have hyc := List.mem_singleton.mp hyc
          exact absurd (hxc.trans hyc.symm) hxy

theorem eraseFold_keys (ch : String) :
    ∀ (l : List String) (em : List (String × List (String × Emotion))),
      ((l.foldl (fun em c => dictModify em c (fun i => dictErase i ch)) em).map Prod.fst)
        = em.map Prod.fst := by
  intro l
  induction l with
  | nil => intro em; rfl
  | cons c rest ih =>
      intro em
      rw [List.foldl_cons, ih, keys_dictModify]

theorem eraseFold_get (ch : String) :
    ∀ (l : List String), l.Nodup →
      ∀ (em : List (String × List (String × Emotion))) (a : String),
      dictGet? (l.foldl (fun em c => dictModify em c (fun i => dictErase i ch)) em) a
        = if a ∈ l then (dictGet? em a).map (fun i => dictErase i ch)
          else dictGet? em a := by
  intro l
  induction l with
  | nil => intro _ em a; simp
  | cons c rest ih =>
      intro hnd em a
      have hnd' := List.nodup_cons.mp hnd
      rw [List.foldl_cons, ih hnd'.2]
      by_cases hal : a ∈ rest
      · rw [if_pos hal, if_pos (List.mem_cons_of_mem _ hal), dictGet?_modify]
        split_ifs with hac
        · exact absurd (hac ▸ hal) hnd'.1
        · rfl
      · rw [if_neg hal]
        by_cases hac : a = c
        · rw [if_pos (by rw [hac]; exact List.mem_cons_self _ _), dictGet?_modify,
            if_pos hac, hac]
        · rw [if_neg (by simp [hac, hal]), dictGet?_modify, if_neg hac]

theorem ginv_remove (g : GroupState) (ch : String) (hg : GInv g) :
    GInv (Group.remove g ch) := by
  unfold Group.remove
  split_ifs with hch
  · dsimp only
    obtain ⟨h1, h2, h3, h4, h5, h6, h7⟩ := hg
    have hndm : (g.members.erase ch).Nodup := h1.erase ch
    have hmem_erase : ∀ x, x ∈ g.members.erase ch → x ≠ ch ∧ x ∈ g.members :=
      fun x hx => (List.Nodup.mem_erase_iff h1).mp hx
    have hmem_intro : ∀ x, x ≠ ch → x ∈ g.members → x ∈ g.members.erase ch :=
      fun x hne hx => (List.Nodup.mem_erase_iff h1).mpr ⟨hne, hx⟩
    have hkeysF : ∀ a, dictGet?
        ((g.members.erase ch).foldl
          (fun em c => dictModify em c (fun i => dictErase i ch))
          (dictErase g.emotions ch)) a
        = if a ∈ g.members.erase ch
          then (dictGet? (dictErase g.emotions ch) a).map (fun i => dictErase i ch)
          else dictGet? (dictErase g.emotions ch) a :=
      fun a => eraseFold_get ch _ hndm _ a
    have houterNodup : (((g.members.erase ch).foldl
        (fun em c => dictModify em c (fun i => dictErase i ch))
        (dictErase g.emotions ch)).map Prod.fst).Nodup := by
      rw [eraseFold_keys]
      exact keys_dictErase_nodup _ _ h2
    have hkeymem : ∀ p, p ∈ (g.members.erase ch).foldl
        (fun em c => dictModify em c (fun i => dictErase i ch))
        (dictErase g.emotions ch) → p.1 ∈ g.members.erase ch := by
      intro p hp
      have hk : p.1 ∈ ((g.members.erase ch).foldl
          (fun em c => dictModify em c (fun i => dictErase i ch))
          (dictErase g.emotions ch)).map Prod.fst :=
        List.mem_map.mpr ⟨p, hp, rfl⟩
      rw [eraseFold_keys] at hk
      rcases List.mem_map.mp hk with ⟨p0, hp0, hfst⟩
      have hne : p0.1 ≠ ch := mem_dictErase_ne _ _ _ h2 hp0
      have hmem : p0.1 ∈ g.members := h4 p0 (mem_dictErase _ _ _ hp0)
      rw [← hfst]
      exact hmem_intro _ hne hmem
    have hvalue : ∀ p, p ∈ (g.members.erase ch).foldl
        (fun em c => dictModify em c (fun i => dictErase i ch))
        (dictErase g.emotions ch) →
        ∃ i0, (p.1, i0) ∈ g.emotions ∧ p.2 = dictErase i0 ch := by
      intro p hp
      have hgetp := dictGet?_of_mem_nodup _ p houterNodup hp
      rw [hkeysF p.1, if_pos (hkeymem p hp)] at hgetp
      have hne : p.1 ≠ ch := (hmem_erase _ (hkeymem p hp)).1
      rw [dictGet?_erase_ne _ _ _ hne] at hgetp
      cases hg0 : dictGet? g.emotions p.1 with
      | none => rw [hg0] at hgetp; simp at hgetp
      | some i0 =>
          rw [hg0] at hgetp
          refine ⟨i0, mem_of_dictGet? _ _ _ hg0, ?_⟩
          simp only [Option.map_some'] at hgetp
          exact (Option.some.injEq _ _ ▸ hgetp).symm
    refine ⟨hndm, houterNodup, ?_, hkeymem, ?_, ?_, ?_⟩
    · intro p hp
      obtain ⟨i0, hi0, hp2⟩ := hvalue p hp
      rw [hp2]
      exact keys_dictErase_nodup _ _ (h3 (p.1, i0) hi0)
    · intro p hp q hq
      obtain ⟨i0, hi0, hp2⟩ := hvalue p hp
      rw [hp2] at hq
      have hq0 : q ∈ i0 := mem_dictErase _ _ _ hq
      have hqne : q.1 ≠ ch := mem_dictErase_ne _ _ _ (h3 (p.1, i0) hi0) hq
      exact hmem_intro _ hqne (h5 (p.1, i0) hi0 q hq0)
    · intro a ha
      rw [dictGet?_isSome_iff, eraseFold_keys, ← dictGet?_isSome_iff,
        dictGet?_erase_ne _ _ _ (hmem_erase _ ha).1]
      exact h6 a (hmem_erase _ ha).2
    · intro x hx y hy hxy
      obtain ⟨inner, hi, hib⟩ :=
        h7 x (hmem_erase _ hx).2 y (hmem_erase _ hy).2 hxy
      refine ⟨dictErase inner ch, ?_, ?_⟩
      · rw [hkeysF x, if_pos hx, dictGet?_erase_ne _ _ _ (hmem_erase _ hx).1, hi]
        rfl
      · rw [dictGet?_erase_ne _ _ _ (hmem_erase _ hy).1]
        exact hib
  · exact hg

theorem ginv_stepOp (w : World) (op : GOp) (hg : GInv w.group) :
    GInv (stepOp w op).group := by
  cases op with
  | addMember n => exact ginv_add w.chars w.group n hg
  | removeMember n => exact ginv_remove w.group n hg
  | line fuel sp tx addr emo => exact apply_line_ginv fuel w sp tx addr emo hg

theorem ginv_runOps (ops : List GOp) :
    ∀ w : World, GInv w.group → GInv (runOps w ops).group := by
  induction ops with
  | nil => intro w hg; exact hg
  | cons op rest ih =>
      intro w hg
      exact ih (stepOp w op) (ginv_stepOp w op hg)

/-- After any sequence of `add`, `remove` and `apply_line` operations on a
freshly constructed group, every ordered pair of distinct current members
has an attitude entry, and every attitude binding — outer and inner key
alike — refers to a current member. -/
theorem attitude_completeness (σ : Store) (draws : List ℚ) (clock : Nat)
    (ops : List GOp) :
    (∀ a ∈ (runOps ⟨σ, GroupState.init, draws, clock⟩ ops).group.members,
      ∀ b ∈ (runOps ⟨σ, GroupState.init, draws, clock⟩ ops).group.members,
        a ≠ b →
        entryPresent (runOps ⟨σ, GroupState.init, draws, clock⟩ ops).group.emotions a b) ∧
    (∀ p ∈ (runOps ⟨σ, GroupState.init, draws, clock⟩ ops).group.emotions,
      p.1 ∈ (runOps ⟨σ, GroupState.init, draws, clock⟩ ops).group.members ∧
      ∀ q ∈ p.2, q.1 ∈ (runOps ⟨σ, GroupState.init, draws, clock⟩ ops).group.members) := by
  have hg := ginv_runOps ops ⟨σ, GroupState.init, draws, clock⟩ ginv_init
  obtain ⟨_, _, _, h4, h5, _, h7⟩ := hg
  exact ⟨h7, fun p hp => ⟨h4 p hp, h5 p hp⟩⟩
